import Mathlib

/-!
Verification of the altfragen-io-backend document extraction engine
(`src/parser/main.py`) against its natural-language specification.

The Python source is shallowly embedded: dict-shaped question/image records
become structures, in-place mutation becomes record update, regular
expressions used by the source are modelled by explicit character-list
scanners with the same matching semantics, and fallible operations
(container open) become `Except`.  Page coordinates are rationals (the
source uses Python floats for exact small decimal arithmetic).
-/

set_option maxHeartbeats 1000000

namespace Altfragen

/-! ## Python string primitives -/

/-- Python `\s` / `str.strip` whitespace on the ASCII range. -/
def isPySpace (c : Char) : Bool :=
  c = ' ' || c = '\t' || c = '\n' || c = '\r' || c = '\x0b' || c = '\x0c'

/-- Remove trailing whitespace (right half of Python `str.strip`). -/
def rstrip : List Char → List Char
  | [] => []
  | c :: rest =>
    match rstrip rest with
    | [] => if isPySpace c then [] else [c]
    | r0 :: rs => c :: r0 :: rs

/-- Python `str.strip()`. -/
def pyStrip (s : List Char) : List Char := rstrip (s.dropWhile isPySpace)

/-- `pat` is a leading substring of `s` (used for literal regex parts). -/
def startsWithL : List Char → List Char → Bool
  | [], _ => true
  | _ :: _, [] => false
  | p :: ps, c :: cs => p = c && startsWithL ps cs

/-- Case-insensitive variant of `startsWithL` (regex `re.IGNORECASE`). -/
def startsWithCI : List Char → List Char → Bool
  | [], _ => true
  | _ :: _, [] => false
  | p :: ps, c :: cs => p.toLower = c.toLower && startsWithCI ps cs

/-- Python `re.sub(r'\s+', ' ', s)`: collapse whitespace runs to one blank. -/
def collapseWsAux : Bool → List Char → List Char
  | _, [] => []
  | prevWs, c :: rest =>
    if isPySpace c then
      if prevWs then collapseWsAux true rest
      else ' ' :: collapseWsAux true rest
    else c :: collapseWsAux false rest

def collapseWs (s : List Char) : List Char := collapseWsAux false s

/-- Numeric value of a digit list (assumes all digits). -/
def digitsVal (ds : List Char) : Int :=
  ds.foldl (fun a c => a * 10 + ((c.toNat : Int) - 48)) 0

/-- Python `int(str)`: optional sign after stripping, then decimal digits;
`none` models the `ValueError` path. -/
def pyIntOfString (s : String) : Option Int :=
  match pyStrip s.data with
  | '-' :: ds => if ds ≠ [] ∧ ds.all Char.isDigit then some (-(digitsVal ds)) else none
  | '+' :: ds => if ds ≠ [] ∧ ds.all Char.isDigit then some (digitsVal ds) else none
  | ds => if ds ≠ [] ∧ ds.all Char.isDigit then some (digitsVal ds) else none

/-- Python `int(float)` truncation toward zero, for the image-key Y component. -/
def pyTrunc (x : ℚ) : Int := if 0 ≤ x then ⌊x⌋ else -⌊-x⌋

/-! ## Data model

One structure covers the dict-shaped question records of both the page-based
(PDF) and paragraph-based (DOCX) paths; keys that a given phase has not yet
written are `Option` fields (`y1`, `y1_search_term`, `image_key`), matching
`dict.get` returning `None`.  The `uuid.uuid4()` identifiers are opaque and
never inspected, so they are modelled by `Nat`. -/

structure Question where
  id : Nat := 0
  question_number : String := ""
  question : String := ""
  full_text : String := ""
  page : Int := -1
  y : ℚ := 0
  y1 : Option ℚ := none
  y1_search_term : Option ℚ := none
  option_a : String := ""
  option_b : String := ""
  option_c : String := ""
  option_d : String := ""
  option_e : String := ""
  subject : String := ""
  correct_answer : String := ""
  comment : String := ""
  image_key : Option String := none
deriving DecidableEq

structure ImageRec where
  page : Int := -1
  bbox : List ℚ := []
  image_ext : String := "jpg"
  question_id : Option Nat := none
deriving DecidableEq

/-- Caller-supplied metadata (exam name, year, semester, default subject). -/
structure MetaData where
  exam_name : String := ""
  exam_year : String := ""
  exam_semester : String := ""
  subject : String := ""
deriving DecidableEq

/-! ## Validity Filter (`should_ignore_question`, main.py 2249-2314) -/

def gesuchtPatterns : List (List Char) :=
  ["gesucht: richtig/falsch?", "gesucht: richtig/falsch",
   "gesucht:richtig/falsch?", "gesucht:richtig/falsch"].map String.data

/-- Character class of the placeholder regex `^[\d\s.\-_]+$`. -/
def digitsWsPunct (c : Char) : Bool :=
  c.isDigit || isPySpace c || c = '.' || c = '-' || c = '_'

/-- Normalized text used for the placeholder comparison:
`re.sub(r'\s+', ' ', question_text.lower().strip())`. -/
def normalizedQText (qt : List Char) : List Char :=
  collapseWs (pyStrip (qt.map Char.toLower))

/-- All five options strip to the empty string. -/
def allOptionsEmpty (q : Question) : Bool :=
  (([pyStrip q.option_a.data, pyStrip q.option_b.data, pyStrip q.option_c.data,
     pyStrip q.option_d.data, pyStrip q.option_e.data].filter
      (fun o => !o.isEmpty)).isEmpty)

/-- `should_ignore_question` (main.py 2249-2314). -/
def shouldIgnoreQuestion (q : Question) : Bool :=
  let qt := pyStrip q.question.data
  if qt.length < 5 then true
  else if allOptionsEmpty q then true
  else if gesuchtPatterns.any (fun p => normalizedQText qt == p) then true
  else if !qt.isEmpty && qt.all digitsWsPunct then true
  else false

/-! ## Result formatting and filtering (main.py 528-578 / 205-249) -/

structure FormattedQuestion where
  id : Nat := 0
  question : String := ""
  optionA : String := ""
  optionB : String := ""
  optionC : String := ""
  optionD : String := ""
  optionE : String := ""
  correctAnswer : String := ""
  subject : String := ""
  comment : String := ""
  difficulty : Nat := 3
  semester : String := ""
  year : String := ""
  image_key : String := ""
deriving DecidableEq

def formatQuestion (md : MetaData) (q : Question) : FormattedQuestion :=
  { id := q.id
    question := q.question
    optionA := q.option_a, optionB := q.option_b, optionC := q.option_c
    optionD := q.option_d, optionE := q.option_e
    correctAnswer := q.correct_answer
    subject := if q.subject = "" then md.subject else q.subject
    comment := q.comment
    difficulty := 3
    semester := md.exam_semester
    year := md.exam_year
    image_key := q.image_key.getD "" }

/-- The filter loop of `process_pdf` / `process_docx`: drop ignored
questions, counting them, and format the rest in order. -/
def filterQuestions (md : MetaData) : List Question → List FormattedQuestion × Nat
  | [] => ([], 0)
  | q :: rest =>
    let r := filterQuestions md rest
    if shouldIgnoreQuestion q then (r.1, r.2 + 1)
    else (formatQuestion md q :: r.1, r.2)

theorem filterQuestions_length (md : MetaData) (qs : List Question) :
    (filterQuestions md qs).1.length + (filterQuestions md qs).2 = qs.length := by
  induction qs with
  | nil => rfl
  | cons q rest ih =>
    by_cases h : shouldIgnoreQuestion q <;>
      simp [filterQuestions, h, ← ih] <;> omega

theorem filterQuestions_eq (md : MetaData) (qs : List Question) :
    (filterQuestions md qs).1
      = (qs.filter (fun q => !shouldIgnoreQuestion q)).map (formatQuestion md)
    ∧ (filterQuestions md qs).2
      = (qs.filter (fun q => shouldIgnoreQuestion q)).length := by
  induction qs with
  | nil => exact ⟨rfl, rfl⟩
  | cons q rest ih =>
    by_cases h : shouldIgnoreQuestion q <;>
      simp [filterQuestions, h, List.filter, ih.1, ih.2]

/-! ## Spatial Assigner (`map_images_to_questions`, main.py 1737-1854) -/

/-- Questions usable as assignment candidates on page `p`: resolved page,
`y1` present and not below `y0` (main.py 1746-1756), grouped by page. -/
def questionsOnPage (qs : List Question) (p : Int) : List Question :=
  qs.filter fun q =>
    decide (0 ≤ q.page) && q.y1.isSome && decide (q.y ≤ q.y1.getD 0)
      && decide (q.page = p)

/-- One-sided vertical gap between an image span and a question span
(main.py 1794-1803). -/
def oneSidedGap (imgY0 imgY1 qY0 qY1 : ℚ) : ℚ :=
  if imgY1 < qY0 then qY0 - imgY1
  else if qY1 < imgY0 then imgY0 - qY1
  else 0

/-- Python `min(..., key := f)` / the strict-`<` update loop: the first
element attaining the minimum of `f` wins ties. -/
def minByQ (f : Question → ℚ) : List Question → Option Question
  | [] => none
  | x :: xs => some (xs.foldl (fun b q => if f q < f b then q else b) x)

/-- The deliberate off-by-one reassignment (main.py 1816-1837): move the
image to the question numbered one less than the computed best match, when
such a question exists among the page's candidates. -/
def quickFixShift (cands : List Question) (best : Question) : Question :=
  match pyIntOfString best.question_number with
  | none => best
  | some n =>
    match cands.find? (fun q => q.question_number = toString (n - 1)) with
    | none => best
    | some t => t

/-- The question an image is finally assigned to (main.py 1759-1837):
containment pass (tightest span wins), else nearest pass (minimum one-sided
gap, first wins), then the quick-fix shift; `none` when the page has no
candidates or the bbox is unusable. -/
def assignedQuestion (qs : List Question) (img : ImageRec) : Option Question :=
  let cands := questionsOnPage qs img.page
  if cands.isEmpty || img.bbox.length < 4 then none
  else
    let iy0 := img.bbox.getD 1 0
    let iy1 := img.bbox.getD 3 0
    let midY := (iy0 + iy1) / 2
    let containing := cands.filter fun q =>
      decide (q.y ≤ midY) && decide (midY ≤ q.y1.getD 0)
    let best :=
      match minByQ (fun q => q.y1.getD 0 - q.y) containing with
      | some b => some b
      | none => minByQ (fun q => oneSidedGap iy0 iy1 q.y (q.y1.getD 0)) cands
    best.map (quickFixShift cands)

/-- Image side of the mapping loop: record the assigned question's id in the
image's `question_id` (main.py 1812-1831).  Each iteration reads only fields
the loop never mutates, so the in-place loop is a `map`. -/
def mapImagesToQuestions (qs : List Question) (images : List ImageRec) :
    List ImageRec :=
  images.map fun img =>
    match assignedQuestion qs img with
    | some q => { img with question_id := some q.id }
    | none => img

/-- Image key `f"{question_id}_{page}_{int(mid_y)}.{ext}"` (main.py 1840-1842). -/
def imageKeyFor (qid : Nat) (img : ImageRec) : String :=
  toString qid ++ "_" ++ toString img.page ++ "_"
    ++ toString (pyTrunc ((img.bbox.getD 1 0 + img.bbox.getD 3 0) / 2))
    ++ "." ++ img.image_ext

/-- Question side of the mapping loop (main.py 1844-1847): the last image
assigned to a question determines its `image_key`. -/
def applyImageKeys (qs : List Question) (images : List ImageRec) :
    List Question :=
  let asg := images.filterMap fun img =>
    (assignedQuestion qs img).map fun q => (q.id, imageKeyFor q.id img)
  qs.map fun q =>
    match (asg.filter (fun a => a.1 = q.id)).getLast? with
    | some a => { q with image_key := some a.2 }
    | none => q

/-! ## Coordinate Resolver: the `y1` estimation loop
(main.py 1390-1433; constants from 1391-1394) -/

/-- `y1` of one question from its `y0`, the bottom marker of its header text,
the `y0` of the next question on the same page (if any) and the page height
(main.py 1398-1431). -/
def computeY1 (y0 : ℚ) (marker : Option ℚ) (nextY : Option ℚ) (pageHeight : ℚ) : ℚ :=
  let base := marker.getD y0
  let est := match nextY with
    | some ny => ny - 5
    | none => pageHeight - 10
  let v1 := max est (base + 75)
  let v2 := max v1 (y0 + 20)
  match nextY with
  | some ny => if ny ≤ v2 then max (ny - 5) (y0 + 20) else v2
  | none => v2

/-- The resolver loop over the (number-sorted) question list: each question
with a resolved page looks ahead to the first later question on the same
page; unresolved questions (`page = -1`) get the default minimal block.
Later loop iterations read only `y`/`page` of later questions, which the
loop never writes, so in-place mutation is a structural recursion. -/
def resolveY1s (pageHeights : Int → Option ℚ) : List Question → List Question
  | [] => []
  | q :: rest =>
    let q' :=
      if q.page = -1 then { q with y1 := some (q.y + 20) }
      else
        { q with y1 := some (computeY1 q.y q.y1_search_term
            ((rest.find? (fun n => n.page = q.page)).map (fun n => n.y))
            ((pageHeights q.page).getD 842)) }
    q' :: resolveY1s pageHeights rest

/-! ## Field Parser (`parse_question_details`, main.py 1471-1563)

Option markers `X)` / `X/` (X in A..E, uppercase — these regexes carry no
IGNORECASE flag) and the metadata keywords are recognized by explicit
scanners with the semantics of the source's regexes. -/

def isOptLetter (c : Char) : Bool :=
  c = 'A' || c = 'B' || c = 'C' || c = 'D' || c = 'E'

def isSepChar (c : Char) : Bool := c = ')' || c = '/'

/-- Extracted options, keyed by letter; a `some ""` entry models a dict key
holding an empty string (present, hence the dict is non-empty). -/
structure OptMap where
  a : Option (List Char) := none
  b : Option (List Char) := none
  c : Option (List Char) := none
  d : Option (List Char) := none
  e : Option (List Char) := none
deriving DecidableEq

def OptMap.insert (m : OptMap) (letter : Char) (v : List Char) : OptMap :=
  if letter = 'A' then { m with a := some v }
  else if letter = 'B' then { m with b := some v }
  else if letter = 'C' then { m with c := some v }
  else if letter = 'D' then { m with d := some v }
  else if letter = 'E' then { m with e := some v }
  else m

def OptMap.getL (m : OptMap) (letter : Char) : Option (List Char) :=
  if letter = 'A' then m.a
  else if letter = 'B' then m.b
  else if letter = 'C' then m.c
  else if letter = 'D' then m.d
  else if letter = 'E' then m.e
  else none

/-- `if not options:` — the dict is empty. -/
def OptMap.isEmptyM (m : OptMap) : Bool :=
  m.a.isNone && m.b.isNone && m.c.isNone && m.d.isNone && m.e.isNone

/-- Python `full_text.split('\n')`. -/
def splitLines : List Char → List (List Char)
  | [] => [[]]
  | c :: rest =>
    if c = '\n' then [] :: splitLines rest
    else
      match splitLines rest with
      | [] => [[c]]
      | l :: ls => (c :: l) :: ls

/-- `re.match(r'^\s*([A-E])[\)/]\s*(.*)', line)` applied to the stripped
line: leading marker letter plus the stripped remainder of the line. -/
def markerMatch (st : List Char) : Option (Char × List Char) :=
  match st with
  | c1 :: c2 :: rest =>
    if isOptLetter c1 && isSepChar c2 then some (c1, pyStrip rest) else none
  | _ => none

/-- The list starts with an option-marker pair `X)` or `X/`. -/
def headIsMarker : List Char → Bool
  | c1 :: c2 :: _ => isOptLetter c1 && isSepChar c2
  | _ => false

/-- `re.match(r'^\s*[A-E][\)/]', next_line)` (stop test, main.py 1515). -/
def isMarkerLine (l : List Char) : Bool :=
  headIsMarker (l.dropWhile isPySpace)

/-- `re.match(r'^\s*(Fach|Antwort|Kommentar):', next_line, re.IGNORECASE)`. -/
def isMetaLine (l : List Char) : Bool :=
  let t := l.dropWhile isPySpace
  startsWithCI "fach:".data t || startsWithCI "antwort:".data t
    || startsWithCI "kommentar:".data t

/-- Continuation collection (main.py 1509-1520): stripped text of the
following non-empty lines, up to the next option marker or metadata line. -/
def takeContinuation (rest : List (List Char)) : List (List Char) :=
  (rest.takeWhile fun l => !(isMarkerLine l || isMetaLine l)).filterMap
    fun l => let st := pyStrip l; if st.isEmpty then none else some st

/-- `" ".join(content_lines)`. -/
def joinSp (pieces : List (List Char)) : List Char :=
  List.intercalate [' '] pieces

/-- Method 1, the line scan (main.py 1489-1526).  Reassigning `i` inside the
Python `for` loop does not skip lines, so every line is visited; a later
marker for the same letter overwrites the dict entry. -/
def lineScanAux : List (List Char) → OptMap → OptMap
  | [], m => m
  | l :: rest, m =>
    match markerMatch (pyStrip l) with
    | none => lineScanAux rest m
    | some (letter, content) =>
      let pieces := (if content.isEmpty then [] else [content])
        ++ takeContinuation rest
      lineScanAux rest (m.insert letter (pyStrip (joinSp pieces)))

def lineScanOptions (s : List Char) : OptMap :=
  lineScanAux (splitLines s) {}

/-- First occurrence of an option marker pair; returns the letter and the
text after the pair (regex `([A-E])[\)/]` scanning). -/
def findMarker : List Char → Option (Char × List Char)
  | [] => none
  | [_] => none
  | c1 :: c2 :: rest =>
    if isOptLetter c1 && isSepChar c2 then some (c1, rest)
    else findMarker (c2 :: rest)

/-- Lookahead of the method-2 regex
`(?=\s*[A-E][\)/]|\s*Fach:|\s*Antwort:|\s*Kommentar:|$)` (case-sensitive,
`$` also matching just before a final newline). -/
def sweepStop (u : List Char) : Bool :=
  (let t := u.dropWhile isPySpace
   headIsMarker t
    || startsWithL "Fach:".data t || startsWithL "Antwort:".data t
    || startsWithL "Kommentar:".data t)
  || u.isEmpty || u == ['\n']

/-- Lazy capture `(.*?)` up to the first position where `stop` holds,
together with the remaining suffix (the resumption point of `finditer`). -/
def captureUntil (stop : List Char → Bool) : List Char → List Char × List Char
  | [] => ([], [])
  | c :: rest =>
    if stop (c :: rest) then ([], c :: rest)
    else
      let r := captureUntil stop rest
      (c :: r.1, r.2)

theorem captureUntil_snd_length (stop : List Char → Bool) (s : List Char) :
    (captureUntil stop s).2.length ≤ s.length := by
  induction s with
  | nil => simp [captureUntil]
  | cons c rest ih =>
    by_cases h : stop (c :: rest) <;> simp [captureUntil, h]
    omega

theorem findMarker_length {s : List Char} {c : Char} {rest : List Char}
    (h : findMarker s = some (c, rest)) : rest.length + 2 ≤ s.length := by
  induction s with
  | nil => simp [findMarker] at h
  | cons c1 t ih =>
    match t, ih with
    | [], _ => simp [findMarker] at h
    | c2 :: r, ih =>
      rw [findMarker] at h
      split at h
      · cases h; simp
      · have := ih h; simpa using Nat.le_succ_of_le this

/-- Method 2, the regex sweep (main.py 1528-1533): successive marker
matches, each capturing lazily up to the stop lookahead.  Structural fuel
recursion: every match consumes at least the two marker characters, so
`s.length` steps always suffice (`regexSweepFuel_enough`). -/
def regexSweepFuel : Nat → List Char → List (Char × List Char)
  | 0, _ => []
  | fuel + 1, s =>
    match findMarker s with
    | none => []
    | some (c, rest) =>
      let cr := captureUntil sweepStop (rest.dropWhile isPySpace)
      (c, cr.1) :: regexSweepFuel fuel cr.2

def regexSweep (s : List Char) : List (Char × List Char) :=
  regexSweepFuel s.length s

/-- Fuel monotonicity: any fuel of at least `s.length` gives the same sweep. -/
theorem regexSweepFuel_enough (fuel fuel2 : Nat) (s : List Char)
    (h1 : s.length ≤ fuel) (h2 : s.length ≤ fuel2) :
    regexSweepFuel fuel s = regexSweepFuel fuel2 s := by
  induction fuel generalizing fuel2 s with
  | zero =>
    have hs : s = [] := List.length_eq_zero.mp (Nat.le_zero.mp h1)
    subst hs
    match fuel2 with
    | 0 => rfl
    | f + 1 => simp [regexSweepFuel, findMarker]
  | succ f ih =>
    match fuel2 with
    | 0 =>
      have hs : s = [] := List.length_eq_zero.mp (Nat.le_zero.mp h2)
      subst hs
      simp [regexSweepFuel, findMarker]
    | f2 + 1 =>
      rw [regexSweepFuel, regexSweepFuel]
      match hm : findMarker s with
      | none => rfl
      | some (c, rest) =>
        have hr := findMarker_length hm
        have hd : (rest.dropWhile isPySpace).length ≤ rest.length := by
          simpa using List.Sublist.length_le (List.dropWhile_sublist _)
        have hcs := captureUntil_snd_length sweepStop (rest.dropWhile isPySpace)
        simp only []
        rw [ih f2 (captureUntil sweepStop (rest.dropWhile isPySpace)).2
          (by omega) (by omega)]

def regexSweepOptions (s : List Char) : OptMap :=
  (regexSweep s).foldl (fun m p => m.insert p.1 (pyStrip p.2)) {}

/-- First occurrence of a literal key; returns the suffix after the key
(`re.search` with a pattern led by a literal). -/
def findAfterKey (key : List Char) : List Char → Option (List Char)
  | [] => none
  | c :: rest =>
    if startsWithL key (c :: rest) then some ((c :: rest).drop key.length)
    else findAfterKey key rest

/-- Metadata lookahead `(?=Stop1:|Stop2:|$)` — no leading `\s*` here. -/
def metaStop (stops : List (List Char)) (u : List Char) : Bool :=
  stops.any (fun st => startsWithL st u) || u.isEmpty || u == ['\n']

/-- `re.search(r'Key\s*(.*?)(?=Stop1|Stop2|$)', text, re.DOTALL)` with the
captured group stripped (main.py 1545, 1550, 1555). -/
def extractMeta (key : List Char) (stops : List (List Char))
    (s : List Char) : Option (List Char) :=
  (findAfterKey key s).map fun after =>
    pyStrip (captureUntil (metaStop stops) (after.dropWhile isPySpace)).1

/-- The per-letter merge (main.py 1538-1541): fill only empty fields. -/
def applyOptions (q : Question) (m : OptMap) : Question :=
  { q with
    option_a := if m.a.isSome ∧ q.option_a = ""
      then String.mk (m.a.getD []) else q.option_a
    option_b := if m.b.isSome ∧ q.option_b = ""
      then String.mk (m.b.getD []) else q.option_b
    option_c := if m.c.isSome ∧ q.option_c = ""
      then String.mk (m.c.getD []) else q.option_c
    option_d := if m.d.isSome ∧ q.option_d = ""
      then String.mk (m.d.getD []) else q.option_d
    option_e := if m.e.isSome ∧ q.option_e = ""
      then String.mk (m.e.getD []) else q.option_e }

/-- `parse_question_details` (main.py 1471-1563).  The five option updates
and the three metadata updates touch pairwise distinct fields and each guard
reads only its own field, so the sequential in-place writes form one record
update.  The body is total: the source's `try/except` never fires. -/
def parseQuestionDetails (q : Question) : Question :=
  let ft := q.full_text.data
  let m0 := lineScanOptions ft
  let m := if m0.isEmptyM then regexSweepOptions ft else m0
  { applyOptions q m with
    subject :=
      if q.subject = "" then
        match extractMeta "Fach:".data ["Antwort:".data, "Kommentar:".data] ft with
        | some v => String.mk v
        | none => q.subject
      else q.subject
    correct_answer :=
      if q.correct_answer = "" then
        match extractMeta "Antwort:".data ["Fach:".data, "Kommentar:".data] ft with
        | some v => String.mk v
        | none => q.correct_answer
      else q.correct_answer
    comment :=
      if q.comment = "" then
        match extractMeta "Kommentar:".data ["Fach:".data, "Antwort:".data] ft with
        | some v => String.mk v
        | none => q.comment
      else q.comment }

/-! ## Pipeline assembly (`process_pdf` main.py 262-595,
`process_docx` main.py 131-260)

Opening the container and walking it with the external PDF/DOCX library is
the fallible, delegated part; its outcome is an `Except` carrying the
extracted question and image records.  The S3 upload loop is an external
collaborator whose success count is a parameter. -/

structure ResultData where
  exam_name : String := ""
  images_uploaded : Nat := 0
  total_questions_extracted : Nat := 0
  total_questions_processed : Nat := 0
  questions_ignored : Nat := 0
  total_images : Nat := 0
deriving DecidableEq

structure ProcessResult where
  status : String
  success : Bool
  message : String := ""
  data : Option ResultData := none
  questions : List FormattedQuestion := []
deriving DecidableEq

/-- Failure result of the top-level `except` handler (main.py 580-590):
no partial data, no questions. -/
def pdfFailureResult (e : String) : ProcessResult :=
  { status := "failed", success := false
    message := "PDF processing error: " ++ e, data := none, questions := [] }

/-- "Keine Fragen" result (main.py 283-297). -/
def emptyPdfResult (md : MetaData) : ProcessResult :=
  { status := "completed", success := false
    message := "Keine Fragen im PDF gefunden"
    data := some { exam_name := md.exam_name }, questions := [] }

def processPdf (res : Except String (List Question × List ImageRec))
    (md : MetaData) (uploads : Nat) : ProcessResult :=
  match res with
  | .error e => pdfFailureResult e
  | .ok (questions, images0) =>
    if questions.isEmpty then emptyPdfResult md
    else
      let qs := questions.map parseQuestionDetails
      let images := mapImagesToQuestions qs images0
      let qs2 := applyImageKeys qs images0
      let fr := filterQuestions md qs2
      { status := "completed", success := true, message := ""
        data := some
          { exam_name := md.exam_name
            images_uploaded := uploads
            total_questions_extracted := qs2.length
            total_questions_processed := fr.1.length
            questions_ignored := fr.2
            total_images := images.length }
        questions := fr.1 }

def docxFailureResult (e : String) : ProcessResult :=
  { status := "failed", success := false
    message := "DOCX processing error: " ++ e, data := none, questions := [] }

def emptyDocxResult (md : MetaData) : ProcessResult :=
  { status := "completed", success := false
    message := "Keine Fragen im DOCX gefunden"
    data := some { exam_name := md.exam_name }, questions := [] }

/-- `process_docx` (main.py 131-260).  The DOCX image mapping writes only
`image_key`/`question_id` fields, which the counters never read; it is kept
abstract as the already-linked question list inside `res`. -/
def processDocx (res : Except String (List Question × List ImageRec))
    (md : MetaData) (uploads : Nat) : ProcessResult :=
  match res with
  | .error e => docxFailureResult e
  | .ok (questions, images) =>
    if questions.isEmpty then emptyDocxResult md
    else
      let fr := filterQuestions md questions
      { status := "completed", success := true, message := ""
        data := some
          { exam_name := md.exam_name
            images_uploaded := uploads
            total_questions_extracted := questions.length
            total_questions_processed := fr.1.length
            questions_ignored := fr.2
            total_images := images.length }
        questions := fr.1 }

/-! ## Block Segmenter, whole-document fallback
(`extract_questions_with_coords`, main.py 1436-1459)

`re.findall(r'^\s*(?:[^.!?]*?(?:Was|Welche|Wo|Wann|Wie|Warum)[^.!?]*?\?)',
full_text, re.IGNORECASE | re.MULTILINE)`: a match starts at a line start
and runs to the first following `?`; it succeeds exactly when that segment
contains none of `.` `!` and contains one of the interrogative words
case-insensitively (whitespace is inside `[^.!?]`, so `\s*` adds nothing). -/

def interrogWords : List (List Char) :=
  ["was", "welche", "wo", "wann", "wie", "warum"].map String.data

def isInfixL (pat : List Char) : List Char → Bool
  | [] => pat.isEmpty
  | c :: rest => startsWithL pat (c :: rest) || isInfixL pat rest

def containsInterrog (seg : List Char) : Bool :=
  interrogWords.any fun w => isInfixL w (seg.map Char.toLower)

def noSentenceStop (seg : List Char) : Bool :=
  seg.all fun c => !(c = '.' || c = '!')

/-- Attempt a match at a line-start position: split at the first `?`. -/
def matchInterrog (s : List Char) : Option (List Char × List Char) :=
  match s.span (fun c => c ≠ '?') with
  | (pre, q :: rest) =>
    if q = '?' && noSentenceStop pre && containsInterrog pre then
      some (pre ++ ['?'], rest)
    else none
  | (_, []) => none

theorem matchInterrog_length {s m rest : List Char}
    (h : matchInterrog s = some (m, rest)) : rest.length < s.length := by
  unfold matchInterrog at h
  rw [List.span_eq_take_drop] at h
  have hsp := List.takeWhile_append_dropWhile (p := fun c => c ≠ '?') (l := s)
  rcases hd : s.dropWhile (fun c => c ≠ '?') with _ | ⟨q, r⟩ <;> rw [hd] at h
  · simp at h
  · dsimp only at h
    by_cases hc : (q = '?' && noSentenceStop (s.takeWhile fun c => c ≠ '?')
        && containsInterrog (s.takeWhile fun c => c ≠ '?')) = true
    · rw [if_pos hc] at h
      simp only [Option.some.injEq, Prod.mk.injEq] at h
      obtain ⟨-, hr⟩ := h
      subst hr
      have hlen := congrArg List.length hsp
      rw [hd] at hlen
      simp only [List.length_append, List.length_cons] at hlen
      omega
    · rw [if_neg hc] at h
      cases h

/-- `re.findall` scanning: try only at line starts; on success resume after
the match (which ends at a `?`, never a line start).  Structural fuel
recursion: every step consumes at least one character, so `s.length` steps
always suffice. -/
def findallFuel : Nat → List Char → Bool → List (List Char)
  | 0, _, _ => []
  | fuel + 1, s, atStart =>
    match s with
    | [] => []
    | c :: rest =>
      if atStart then
        match matchInterrog (c :: rest) with
        | some mr => mr.1 :: findallFuel fuel mr.2 false
        | none => findallFuel fuel rest (c = '\n')
      else findallFuel fuel rest (c = '\n')

def questionSentences (s : List Char) : List (List Char) :=
  findallFuel s.length s true

/-- `[s.strip() for s in question_sentences if len(s.strip()) > 20]`
(main.py 1444). -/
def validSentences (s : List Char) : List (List Char) :=
  ((questionSentences s).map pyStrip).filter fun v => 20 < v.length

/-- Position-only question emitted by the fallback (main.py 1448-1458); the
fresh `uuid.uuid4()` is opaque and modelled by the running index. -/
def mkFallbackQuestion (idx : Nat) (sentence : List Char) : Question :=
  { id := idx, page := -1, y := 0
    full_text := String.mk sentence
    question_number := toString idx
    question := String.mk sentence }

/-- `enumerate(valid_sentences, start := len(questions) + 1)` append loop. -/
def buildFallback (startIdx : Nat) : List (List Char) → List Question
  | [] => []
  | s :: rest => mkFallbackQuestion startIdx s :: buildFallback (startIdx + 1) rest

/-- The secondary fallback (main.py 1436-1459): only when fewer than 5
questions were found so far. -/
def fallbackQuestions (questions : List Question) (fullText : String) :
    List Question :=
  if questions.length < 5 then
    questions ++ buildFallback (questions.length + 1) (validSentences fullText.data)
  else questions

/-! ## Shared helper lemmas -/

theorem rstrip_length_le (s : List Char) : (rstrip s).length ≤ s.length := by
  induction s with
  | nil => simp [rstrip]
  | cons c rest ih =>
    rw [rstrip]
    rcases h : rstrip rest with _ | ⟨r0, rs⟩
    · by_cases hc : isPySpace c <;> simp [hc]
    · rw [h] at ih
      simp only [List.length_cons] at ih ⊢
      omega

theorem pyStrip_length_le (s : List Char) : (pyStrip s).length ≤ s.length := by
  have h1 := rstrip_length_le (s.dropWhile isPySpace)
  have h2 : (s.dropWhile isPySpace).length ≤ s.length := by
    simpa using List.Sublist.length_le (List.dropWhile_sublist _)
  exact le_trans h1 h2

theorem pyStrip_nil : pyStrip [] = [] := rfl

theorem allOptionsEmpty_iff (q : Question) :
    allOptionsEmpty q = true ↔
      (pyStrip q.option_a.data = [] ∧ pyStrip q.option_b.data = []
       ∧ pyStrip q.option_c.data = [] ∧ pyStrip q.option_d.data = []
       ∧ pyStrip q.option_e.data = []) := by
  unfold allOptionsEmpty
  rw [List.isEmpty_iff, List.filter_eq_nil_iff]
  simp [List.isEmpty_iff]

theorem shouldIgnore_of_allOptionsEmpty {q : Question}
    (h : allOptionsEmpty q = true) : shouldIgnoreQuestion q = true := by
  unfold shouldIgnoreQuestion
  by_cases h5 : (pyStrip q.question.data).length < 5 <;> simp [h5, h]

theorem minByQ_spec (f : Question → ℚ) (l : List Question) (b : Question)
    (h : minByQ f l = some b) : b ∈ l ∧ ∀ q ∈ l, f b ≤ f q := by
  match l with
  | [] => simp [minByQ] at h
  | x :: xs =>
    simp only [minByQ, Option.some.injEq] at h
    subst h
    have main : ∀ (xs : List Question) (x : Question),
        (xs.foldl (fun b q => if f q < f b then q else b) x ∈ x :: xs)
        ∧ f (xs.foldl (fun b q => if f q < f b then q else b) x) ≤ f x
        ∧ ∀ q ∈ xs, f (xs.foldl (fun b q => if f q < f b then q else b) x) ≤ f q := by
      intro xs
      induction xs with
      | nil => intro x; simp
      | cons y ys ih =>
        intro x
        by_cases hxy : f y < f x
        · rcases ih y with ⟨hmem, hle, hall⟩
          refine ⟨?_, ?_, ?_⟩
          · simp only [List.foldl_cons, if_pos hxy]
            rcases List.mem_cons.mp hmem with hm | hm <;> simp [hm]
          · simp only [List.foldl_cons, if_pos hxy]
            exact le_trans hle (le_of_lt hxy)
          · intro q hq
            simp only [List.foldl_cons, if_pos hxy]
            rcases List.mem_cons.mp hq with rfl | hq2
            · exact hle
            · exact hall q hq2
        · rcases ih x with ⟨hmem, hle, hall⟩
          refine ⟨?_, ?_, ?_⟩
          · simp only [List.foldl_cons, if_neg hxy]
            rcases List.mem_cons.mp hmem with hm | hm <;> simp [hm]
          · simp only [List.foldl_cons, if_neg hxy]
            exact hle
          · intro q hq
            simp only [List.foldl_cons, if_neg hxy]
            rcases List.mem_cons.mp hq with rfl | hq2
            · exact le_trans hle (le_of_not_lt hxy)
            · exact hall q hq2
    rcases main xs x with ⟨hmem, hle, hall⟩
    exact ⟨hmem, by
      intro q hq
      rcases List.mem_cons.mp hq with rfl | hq2
      · exact hle
      · exact hall q hq2⟩

/-! ## C5: container-open failure -/

/-- C5: for every input whose document container cannot be opened or parsed
at the container level (the `Except.error` outcome of the open/extract
step), both the PDF and the DOCX pipelines return a failure result — status
"failed", success false — carrying zero questions and no partial data. -/
theorem c5_container_open_failure (e : String) (md : MetaData) (uploads : Nat) :
    (processPdf (Except.error e) md uploads).status = "failed"
    ∧ (processPdf (Except.error e) md uploads).success = false
    ∧ (processPdf (Except.error e) md uploads).questions = []
    ∧ (processPdf (Except.error e) md uploads).data = none
    ∧ (processDocx (Except.error e) md uploads).status = "failed"
    ∧ (processDocx (Except.error e) md uploads).success = false
    ∧ (processDocx (Except.error e) md uploads).questions = []
    ∧ (processDocx (Except.error e) md uploads).data = none :=
  ⟨rfl, rfl, rfl, rfl, rfl, rfl, rfl, rfl⟩

/-! ## C10: counter invariants of completed results -/

/-- C10: in every completed processing result (page-based and
paragraph-based), `total_questions_processed + questions_ignored =
total_questions_extracted`, and `total_questions_processed` equals the
length of the returned question list. -/
theorem c10_counter_invariant
    (res : Except String (List Question × List ImageRec))
    (md : MetaData) (uploads : Nat) (d : ResultData) :
    ((processPdf res md uploads).data = some d →
      d.total_questions_processed + d.questions_ignored
          = d.total_questions_extracted
      ∧ d.total_questions_processed
          = (processPdf res md uploads).questions.length)
    ∧ ((processDocx res md uploads).data = some d →
      d.total_questions_processed + d.questions_ignored
          = d.total_questions_extracted
      ∧ d.total_questions_processed
          = (processDocx res md uploads).questions.length) := by
  constructor
  · intro h
    match res with
    | .error e => simp [processPdf, pdfFailureResult] at h
    | .ok (qs, imgs) =>
      simp only [processPdf] at h ⊢
      by_cases he : qs.isEmpty
      · rw [if_pos he] at h ⊢
        simp only [emptyPdfResult, Option.some.injEq] at h
        subst h
        simp [emptyPdfResult]
      · rw [if_neg he] at h ⊢
        simp only [Option.some.injEq] at h
        subst h
        exact ⟨filterQuestions_length md _, rfl⟩
  · intro h
    match res with
    | .error e => simp [processDocx, docxFailureResult] at h
    | .ok (qs, imgs) =>
      simp only [processDocx] at h ⊢
      by_cases he : qs.isEmpty
      · rw [if_pos he] at h ⊢
        simp only [emptyDocxResult, Option.some.injEq] at h
        subst h
        simp [emptyDocxResult]
      · rw [if_neg he] at h ⊢
        simp only [Option.some.injEq] at h
        subst h
        exact ⟨filterQuestions_length md _, rfl⟩

/-- The concrete completed input used to witness C10. -/
def c10WitnessInput : Except String (List Question × List ImageRec) :=
  Except.ok ([{ id := 7, question := "Was ist ein Herz?", option_a := "Organ" }], [])

def c10WitnessData : ResultData :=
  { total_questions_extracted := 1, total_questions_processed := 1
    questions_ignored := 0 }

/-- Witness for C10 at a concrete completed input. -/
theorem c10_counter_invariant_witness :
    (processPdf c10WitnessInput {} 0).data = some c10WitnessData
    ∧ c10WitnessData.total_questions_processed + c10WitnessData.questions_ignored
        = c10WitnessData.total_questions_extracted :=
  ⟨by decide,
   ((c10_counter_invariant c10WitnessInput {} 0 c10WitnessData).1 (by decide)).1⟩

/-! ## C4: the Validity Filter invariant and rejection conditions -/

/-- C4: every question in the final returned list has question text of
length at least 5 and at least one non-empty option; and a question is
excluded from the output (and counted in `questions_ignored`) exactly when
its (stripped) text is shorter than 5 characters, or all five options are
empty, or its whitespace-normalized lowercase text equals one of the
`gesucht: richtig/falsch` placeholders, or its text consists solely of
digits, whitespace and the punctuation characters period/hyphen/underscore
(the character class of the source's placeholder regex). -/
theorem c4_validity_filter :
    (∀ (md : MetaData) (qs : List Question) (fq : FormattedQuestion),
        fq ∈ (filterQuestions md qs).1 →
        5 ≤ fq.question.length
        ∧ (fq.optionA ≠ "" ∨ fq.optionB ≠ "" ∨ fq.optionC ≠ ""
           ∨ fq.optionD ≠ "" ∨ fq.optionE ≠ ""))
    ∧ (∀ (md : MetaData) (qs : List Question),
        (filterQuestions md qs).1
          = (qs.filter (fun q => !shouldIgnoreQuestion q)).map (formatQuestion md)
        ∧ (filterQuestions md qs).2
          = (qs.filter (fun q => shouldIgnoreQuestion q)).length)
    ∧ (∀ q : Question,
        shouldIgnoreQuestion q = true ↔
          ((pyStrip q.question.data).length < 5
           ∨ (pyStrip q.option_a.data = [] ∧ pyStrip q.option_b.data = []
              ∧ pyStrip q.option_c.data = [] ∧ pyStrip q.option_d.data = []
              ∧ pyStrip q.option_e.data = [])
           ∨ normalizedQText (pyStrip q.question.data) ∈ gesuchtPatterns
           ∨ (pyStrip q.question.data ≠ []
              ∧ ∀ c ∈ pyStrip q.question.data, digitsWsPunct c = true))) := by
  have hiff : ∀ q : Question,
      shouldIgnoreQuestion q = true ↔
        ((pyStrip q.question.data).length < 5
         ∨ (pyStrip q.option_a.data = [] ∧ pyStrip q.option_b.data = []
            ∧ pyStrip q.option_c.data = [] ∧ pyStrip q.option_d.data = []
            ∧ pyStrip q.option_e.data = [])
         ∨ normalizedQText (pyStrip q.question.data) ∈ gesuchtPatterns
         ∨ (pyStrip q.question.data ≠ []
            ∧ ∀ c ∈ pyStrip q.question.data, digitsWsPunct c = true)) := by
    intro q
    constructor
    · intro h
      unfold shouldIgnoreQuestion at h
      dsimp only at h
      split_ifs at h with h1 h2 h3 h4
      · exact Or.inl h1
      · exact Or.inr (Or.inl ((allOptionsEmpty_iff q).mp h2))
      · rcases List.any_eq_true.mp h3 with ⟨p, hp, hbeq⟩
        exact Or.inr (Or.inr (Or.inl ((eq_of_beq hbeq) ▸ hp)))
      · rw [Bool.and_eq_true, Bool.not_eq_true'] at h4
        exact Or.inr (Or.inr (Or.inr
          ⟨List.isEmpty_eq_false.mp h4.1, List.all_eq_true.mp h4.2⟩))
    · intro h
      unfold shouldIgnoreQuestion
      dsimp only
      split_ifs with h1 h2 h3 h4
      · rfl
      · rfl
      · rfl
      · rfl
      · rcases h with h | h | h | h
        · exact absurd h h1
        · exact absurd ((allOptionsEmpty_iff q).mpr h) h2
        · exact absurd (List.any_eq_true.mpr ⟨_, h, by simp⟩) h3
        · refine absurd ?_ h4
          rw [Bool.and_eq_true, Bool.not_eq_true']
          exact ⟨List.isEmpty_eq_false.mpr h.1, List.all_eq_true.mpr h.2⟩
  refine ⟨?_, fun md qs => filterQuestions_eq md qs, hiff⟩
  intro md qs fq hfq
  rw [(filterQuestions_eq md qs).1] at hfq
  rcases List.mem_map.mp hfq with ⟨q, hqmem, rfl⟩
  have hkeep : ¬ shouldIgnoreQuestion q = true := by
    have := (List.mem_filter.mp hqmem).2
    simp at this
    simp [this]
  rw [hiff q] at hkeep
  constructor
  · have h1 : 5 ≤ (pyStrip q.question.data).length := by
      by_contra hlt
      exact hkeep (Or.inl (by omega))
    have h2 := pyStrip_length_le q.question.data
    show 5 ≤ q.question.data.length
    omega
  · by_contra hall
    push_neg at hall
    obtain ⟨ha, hb, hc, hd, he⟩ := hall
    apply hkeep
    refine Or.inr (Or.inl ⟨?_, ?_, ?_, ?_, ?_⟩)
    · show pyStrip q.option_a.data = []
      rw [show q.option_a = "" from ha]
      rfl
    · show pyStrip q.option_b.data = []
      rw [show q.option_b = "" from hb]
      rfl
    · show pyStrip q.option_c.data = []
      rw [show q.option_c = "" from hc]
      rfl
    · show pyStrip q.option_d.data = []
      rw [show q.option_d = "" from hd]
      rfl
    · show pyStrip q.option_e.data = []
      rw [show q.option_e = "" from he]
      rfl

def c4WitnessQ : Question :=
  { id := 3, question := "Was ist ein Herz?", option_a := "Organ" }

/-- Witness for C4 at a concrete filtered list. -/
theorem c4_validity_filter_witness :
    formatQuestion {} c4WitnessQ ∈ (filterQuestions {} [c4WitnessQ]).1
    ∧ 5 ≤ (formatQuestion {} c4WitnessQ).question.length :=
  ⟨by decide,
   (c4_validity_filter.1 {} [c4WitnessQ] _ (by decide)).1⟩

/-! ## C1: containment pass versus the quick-fix shift -/

def c1Q1 : Question :=
  { id := 1, question_number := "1", page := 0, y := 0, y1 := some 100 }

def c1Q2 : Question :=
  { id := 2, question_number := "2", page := 0, y := 200, y1 := some 400 }

def c1Img : ImageRec := { page := 0, bbox := [0, 250, 50, 350] }

/-- C1 (code bug, evaluated at the failing input): the image's midpoint 300
is contained only by question 2 — the tightest containing match — yet the
quick-fix shift (main.py 1816-1837) records question 1's id in the image's
`question_id`, contradicting the claim and spec §4.5. -/
theorem c1_containment_quickfix_divergence :
    (c1Img.bbox.getD 1 0 + c1Img.bbox.getD 3 0) / 2 = (300 : ℚ)
    ∧ ((questionsOnPage [c1Q1, c1Q2] 0).filter fun q =>
        decide (q.y ≤ (300 : ℚ)) && decide ((300 : ℚ) ≤ q.y1.getD 0)) = [c1Q2]
    ∧ assignedQuestion [c1Q1, c1Q2] c1Img = some c1Q1
    ∧ mapImagesToQuestions [c1Q1, c1Q2] [c1Img]
        = [{ c1Img with question_id := some c1Q1.id }]
    ∧ c1Q1.id ≠ c1Q2.id := by
  refine ⟨?_, ?_, ?_, ?_, by decide⟩ <;>
    · norm_num [assignedQuestion, questionsOnPage, mapImagesToQuestions,
        c1Q1, c1Q2, c1Img, minByQ, quickFixShift, oneSidedGap, pyIntOfString,
        pyStrip, rstrip, isPySpace, digitsVal, List.filter, List.find?]
      try simp +decide

/-! ## C2: nearest pass (one-sided gap) -/

def c2ExQ1 : Question :=
  { id := 1, question_number := "1", page := 0, y := 0, y1 := some 100 }

def c2ExQ2 : Question :=
  { id := 2, question_number := "2", page := 0, y := 200, y1 := some 400 }

def c2ExImg : ImageRec := { page := 0, bbox := [0, 120, 50, 140] }

def c2FarImg : ImageRec := { page := 0, bbox := [0, 500, 50, 520] }

/-- C2 counterexample: the claim as stated fails on the code twice over.
For `c2FarImg` the one-sided-gap minimizer is question 2, but the quick-fix
shift assigns question 1; and in the claim's own example the second
question's gap is `200 − 140 = 60`, not the stated 70. -/
theorem c2_nearest_gap_counterexample :
    minByQ (fun q => oneSidedGap 500 520 q.y (q.y1.getD 0))
        (questionsOnPage [c2ExQ1, c2ExQ2] 0) = some c2ExQ2
    ∧ assignedQuestion [c2ExQ1, c2ExQ2] c2FarImg = some c2ExQ1
    ∧ c2ExQ1 ≠ c2ExQ2
    ∧ oneSidedGap 120 140 200 400 = 60
    ∧ (60 : ℚ) ≠ 70 := by
  refine ⟨?_, ?_, fun h => absurd (congrArg Question.id h) (by decide),
      ?_, by norm_num⟩ <;>
    · norm_num [assignedQuestion, questionsOnPage, c2ExQ1, c2ExQ2, c2FarImg,
        minByQ, quickFixShift, oneSidedGap, pyIntOfString, pyStrip, rstrip,
        isPySpace, digitsVal, List.filter, List.find?]
      try simp +decide

/-- C2 (amended): when no candidate contains the image's midpoint, the code
picks the first question minimizing the one-sided gap (`q.y0 − image.y1`
above, `image.y0 − q.y1` below, 0 on overlap) and then applies the
quick-fix shift to the minimizer; in the claim's example (gaps 20 vs 60)
the first question is chosen. -/
theorem c2_nearest_gap_amended :
    (∀ (qs : List Question) (img : ImageRec),
      4 ≤ img.bbox.length →
      questionsOnPage qs img.page ≠ [] →
      (∀ q ∈ questionsOnPage qs img.page,
          ¬(q.y ≤ (img.bbox.getD 1 0 + img.bbox.getD 3 0) / 2
            ∧ (img.bbox.getD 1 0 + img.bbox.getD 3 0) / 2 ≤ q.y1.getD 0)) →
      ∃ b, minByQ (fun q => oneSidedGap (img.bbox.getD 1 0) (img.bbox.getD 3 0)
              q.y (q.y1.getD 0)) (questionsOnPage qs img.page) = some b
        ∧ (∀ q ∈ questionsOnPage qs img.page,
            oneSidedGap (img.bbox.getD 1 0) (img.bbox.getD 3 0) b.y (b.y1.getD 0)
              ≤ oneSidedGap (img.bbox.getD 1 0) (img.bbox.getD 3 0) q.y (q.y1.getD 0))
        ∧ assignedQuestion qs img
            = some (quickFixShift (questionsOnPage qs img.page) b))
    ∧ assignedQuestion [c2ExQ1, c2ExQ2] c2ExImg = some c2ExQ1
    ∧ oneSidedGap 120 140 0 100 = 20
    ∧ oneSidedGap 120 140 200 400 = 60 := by
  refine ⟨?_,
    by
      norm_num [assignedQuestion, questionsOnPage, c2ExQ1, c2ExQ2, c2ExImg,
        minByQ, quickFixShift, oneSidedGap, pyIntOfString, pyStrip, rstrip,
        isPySpace, digitsVal, List.filter, List.find?]
      try simp +decide,
    by norm_num [oneSidedGap], by norm_num [oneSidedGap]⟩
  intro qs img h4 hne hnc
  rcases hb : minByQ (fun q => oneSidedGap (img.bbox.getD 1 0) (img.bbox.getD 3 0)
      q.y (q.y1.getD 0)) (questionsOnPage qs img.page) with _ | b
  · rcases hq : questionsOnPage qs img.page with _ | ⟨c0, cs⟩
    · exact absurd hq hne
    · rw [hq] at hb
      simp [minByQ] at hb
  · refine ⟨b, rfl, (minByQ_spec _ _ _ hb).2, ?_⟩
    have hemp : (questionsOnPage qs img.page).isEmpty = false :=
      List.isEmpty_eq_false.mpr hne
    have hfil : ((questionsOnPage qs img.page).filter fun q =>
        decide (q.y ≤ (img.bbox.getD 1 0 + img.bbox.getD 3 0) / 2) &&
        decide ((img.bbox.getD 1 0 + img.bbox.getD 3 0) / 2 ≤ q.y1.getD 0)) = [] := by
      rw [List.filter_eq_nil_iff]
      intro q hq
      simp only [Bool.and_eq_true, decide_eq_true_eq, not_and]
      intro hc1 hc2
      exact hnc q hq ⟨hc1, hc2⟩
    unfold assignedQuestion
    dsimp only
    rw [if_neg (by simp only [hemp, Bool.false_or, decide_eq_true_eq]; omega)]
    rw [hfil]
    have hnil : minByQ (fun q => q.y1.getD 0 - q.y) ([] : List Question) = none :=
      rfl
    rw [hnil]
    rw [hb]
    rfl

/-- Witness for C2's amended universal statement at the far image. -/
theorem c2_nearest_gap_amended_witness :
    ∃ b, minByQ (fun q => oneSidedGap (c2FarImg.bbox.getD 1 0)
            (c2FarImg.bbox.getD 3 0) q.y (q.y1.getD 0))
          (questionsOnPage [c2ExQ1, c2ExQ2] c2FarImg.page) = some b
      ∧ (∀ q ∈ questionsOnPage [c2ExQ1, c2ExQ2] c2FarImg.page,
          oneSidedGap (c2FarImg.bbox.getD 1 0) (c2FarImg.bbox.getD 3 0)
              b.y (b.y1.getD 0)
            ≤ oneSidedGap (c2FarImg.bbox.getD 1 0) (c2FarImg.bbox.getD 3 0)
              q.y (q.y1.getD 0))
      ∧ assignedQuestion [c2ExQ1, c2ExQ2] c2FarImg
          = some (quickFixShift (questionsOnPage [c2ExQ1, c2ExQ2] c2FarImg.page) b) :=
  c2_nearest_gap_amended.1 [c2ExQ1, c2ExQ2] c2FarImg (by norm_num [c2FarImg])
    (by
      norm_num [questionsOnPage, c2ExQ1, c2ExQ2, c2FarImg, List.filter]
      try simp +decide)
    (by
      norm_num [questionsOnPage, c2ExQ1, c2ExQ2, c2FarImg, List.filter]
      try simp +decide)

/-! ## C6: the y1 estimation formula -/

def c6Q1 : Question :=
  { id := 1, question_number := "1", page := 0, y := 100, y1_search_term := some 110 }

def c6Q2 : Question := { id := 2, question_number := "2", page := 0, y := 150 }

/-- C6 counterexample: with the next question starting at 150, the claim's
formula `max(next − margin, marker + MIN_TEXT_AREA_HEIGHT)` clamped to
`y0 + ABSOLUTE_MIN` gives 185, but the code's final overlap clamp
(main.py 1429-1431) reduces the result to 145. -/
theorem c6_y1_formula_counterexample :
    ((resolveY1s (fun _ => some 842) [c6Q1, c6Q2]).map fun q => q.y1)
      = [some 145, some 832]
    ∧ max (max ((150 : ℚ) - 5) (110 + 75)) (100 + 20) = 185
    ∧ (145 : ℚ) ≠ 185 := by
  refine ⟨?_, by norm_num, by norm_num⟩
  norm_num [resolveY1s, computeY1, c6Q1, c6Q2, List.find?]
  try simp +decide
  try norm_num

/-- Modelled from the amended claim's words: `y1 = max(next_y0 − margin,
marker_bottom + MIN_TEXT_AREA_HEIGHT)` clamped to at least
`y0 + ABSOLUTE_MIN_BLOCK_HEIGHT`; then, when that value reaches or exceeds
the next question's y0 on the same page, it is reduced to `next_y0 − margin`
and re-clamped; with no later question on the page, `page_height −
bottom_margin` replaces the next question's y0. -/
def specY1 (y0 markerBottom : ℚ) (nextY : Option ℚ) (pageHeight : ℚ) : ℚ :=
  let next := match nextY with
    | some ny => ny - 5
    | none => pageHeight - 10
  let v := max (max next (markerBottom + 75)) (y0 + 20)
  match nextY with
  | some ny => if v < ny then v else max (ny - 5) (y0 + 20)
  | none => v

/-- C6 (amended): for every question with a resolved page, the resolver's
`y1` equals the claim's formula extended with the final overlap clamp, the
next question's y0 taken from the first later question on the same page. -/
theorem c6_y1_amended (hp : Int → Option ℚ) (qs : List Question) (i : Nat)
    (q : Question) (hq : qs[i]? = some q) (hpage : q.page ≠ -1) :
    (resolveY1s hp qs)[i]? = some { q with y1 := some (specY1 q.y
        (q.y1_search_term.getD q.y)
        (((qs.drop (i + 1)).find? (fun n => n.page = q.page)).map fun n => n.y)
        ((hp q.page).getD 842)) } := by
  have hcs : ∀ (y0 : ℚ) (m : Option ℚ) (ny : Option ℚ) (ph : ℚ),
      computeY1 y0 m ny ph = specY1 y0 (m.getD y0) ny ph := by
    intro y0 m ny ph
    unfold computeY1 specY1
    cases ny with
    | none => rfl
    | some v =>
      dsimp only
      by_cases hle : v ≤ max (max (v - 5) (m.getD y0 + 75)) (y0 + 20)
      · rw [if_pos hle, if_neg (by push_neg; exact hle)]
      · rw [if_neg hle, if_pos (by push_neg at hle; exact hle)]
  induction qs generalizing i with
  | nil => simp at hq
  | cons q0 rest ih =>
    match i with
    | 0 =>
      simp only [List.getElem?_cons_zero, Option.some.injEq] at hq
      subst hq
      simp only [resolveY1s, List.getElem?_cons_zero, Option.some.injEq]
      rw [if_neg hpage]
      rw [hcs]
      simp
    | i + 1 =>
      simp only [List.getElem?_cons_succ] at hq
      simp only [resolveY1s, List.getElem?_cons_succ, List.drop_succ_cons]
      exact ih i hq

def c6PageHeights : Int → Option ℚ := fun _ => some 842

/-- Witness for C6's amended statement at the counterexample input. -/
theorem c6_y1_amended_witness :
    (resolveY1s c6PageHeights [c6Q1, c6Q2])[0]?
      = some { c6Q1 with y1 := some (specY1 c6Q1.y
          (c6Q1.y1_search_term.getD c6Q1.y)
          ((([c6Q1, c6Q2].drop 1).find? (fun n => n.page = c6Q1.page)).map
            fun n => n.y)
          ((c6PageHeights c6Q1.page).getD 842)) } :=
  c6_y1_amended c6PageHeights [c6Q1, c6Q2] 0 c6Q1 rfl (by decide)

/-! ## C3: the whole-document fallback length threshold -/

def c3Dummy1 : Question := { id := 1, question := "Erste Dummyfrage?" }

def c3Dummy2 : Question := { id := 2, question := "Zweite Dummyfrage?" }

/-- C3 counterexample: with 2 prior questions, an interrogative sentence of
stripped length exactly 20 is found by the whole-document scan, yet the code
(`len(s.strip()) > 20`, main.py 1444) appends nothing, contradicting the
claim's "at least 20 characters". -/
theorem c3_fallback_threshold_counterexample :
    ([c3Dummy1, c3Dummy2] : List Question).length < 5
    ∧ questionSentences "Was ist das Herz ab?".data
        = ["Was ist das Herz ab?".data]
    ∧ (pyStrip "Was ist das Herz ab?".data).length = 20
    ∧ fallbackQuestions [c3Dummy1, c3Dummy2] "Was ist das Herz ab?"
        = [c3Dummy1, c3Dummy2] := by decide

/-- C3 (amended): when fewer than 5 questions were found, every
interrogative-led sentence of the whole-document scan whose stripped length
is strictly greater than 20 is appended as a position-only question
(page −1, empty options), so such a document ends up with more questions
than it started with. -/
theorem c3_whole_document_fallback (qs : List Question) (t : String)
    (s : List Char) (h5 : qs.length < 5) (hs : s ∈ questionSentences t.data)
    (hl : 20 < (pyStrip s).length) :
    (∃ q ∈ fallbackQuestions qs t,
        q.question = String.mk (pyStrip s) ∧ q.page = -1 ∧ q.y = 0
        ∧ q.option_a = "" ∧ q.option_b = "" ∧ q.option_c = ""
        ∧ q.option_d = "" ∧ q.option_e = "")
    ∧ qs.length < (fallbackQuestions qs t).length := by
  have hv : pyStrip s ∈ validSentences t.data := by
    unfold validSentences
    exact List.mem_filter.mpr ⟨List.mem_map.mpr ⟨s, hs, rfl⟩, by simpa using hl⟩
  have hbf : ∀ (vs : List (List Char)) (start : Nat) (v : List Char), v ∈ vs →
      ∃ q ∈ buildFallback start vs, q.question = String.mk v ∧ q.page = -1
        ∧ q.y = 0 ∧ q.option_a = "" ∧ q.option_b = "" ∧ q.option_c = ""
        ∧ q.option_d = "" ∧ q.option_e = "" := by
    intro vs
    induction vs with
    | nil => intro start v hw; simp at hw
    | cons w ws ih =>
      intro start v hw
      rcases List.mem_cons.mp hw with rfl | hw2
      · exact ⟨mkFallbackQuestion start v, List.mem_cons_self _ _,
          rfl, rfl, rfl, rfl, rfl, rfl, rfl, rfl⟩
      · rcases ih (start + 1) v hw2 with ⟨q, hqm, hrest⟩
        exact ⟨q, List.mem_cons_of_mem _ hqm, hrest⟩
  have hblen : ∀ (vs : List (List Char)) (start : Nat),
      (buildFallback start vs).length = vs.length := by
    intro vs
    induction vs with
    | nil => intro start; rfl
    | cons w ws ih => intro start; simp [buildFallback, ih]
  unfold fallbackQuestions
  rw [if_pos h5]
  constructor
  · rcases hbf _ (qs.length + 1) _ hv with ⟨q, hqm, hrest⟩
    exact ⟨q, List.mem_append_right _ hqm, hrest⟩
  · rw [List.length_append, hblen]
    have := List.length_pos_of_mem hv
    omega

/-- Witness for C3's amended statement: a 21-character sentence is kept. -/
theorem c3_whole_document_fallback_witness :
    (∃ q ∈ fallbackQuestions [] "Was ist das Herz gut?",
        q.question = String.mk (pyStrip "Was ist das Herz gut?".data)
        ∧ q.page = -1 ∧ q.y = 0
        ∧ q.option_a = "" ∧ q.option_b = "" ∧ q.option_c = ""
        ∧ q.option_d = "" ∧ q.option_e = "")
    ∧ ([] : List Question).length
        < (fallbackQuestions [] "Was ist das Herz gut?").length :=
  c3_whole_document_fallback [] "Was ist das Herz gut?"
    "Was ist das Herz gut?".data (by decide) (by decide) (by decide)

/-! ## Marker-absence lemmas (shared by C9) -/

theorem findMarker_tail {c : Char} {s : List Char}
    (h : findMarker (c :: s) = none) : findMarker s = none := by
  match s with
  | [] => rfl
  | c2 :: r =>
    rw [findMarker] at h
    split at h
    · exact absurd h (by simp)
    · exact h

theorem findMarker_append_none {a b : List Char}
    (h : findMarker (a ++ b) = none) :
    findMarker a = none ∧ findMarker b = none := by
  induction a with
  | nil => exact ⟨rfl, h⟩
  | cons x r ih =>
    rw [List.cons_append] at h
    have hb := findMarker_tail h
    match r with
    | [] => exact ⟨rfl, by simpa using hb⟩
    | y :: r2 =>
      rw [List.cons_append] at h
      rw [findMarker] at h ⊢
      split at h
      · exact absurd h (by simp)
      · rename_i hpair
        rw [if_neg hpair]
        exact ih h

theorem rstrip_decomp (m : List Char) : ∃ w, m = rstrip m ++ w := by
  induction m with
  | nil => exact ⟨[], rfl⟩
  | cons c rest ih =>
    rw [rstrip]
    rcases h : rstrip rest with _ | ⟨r0, rs⟩
    · by_cases hc : isPySpace c
      · rw [if_pos hc]
        exact ⟨c :: rest, rfl⟩
      · rw [if_neg hc]
        exact ⟨rest, rfl⟩
    · rcases ih with ⟨w, hw⟩
      rw [h] at hw
      exact ⟨w, by rw [List.cons_append, ← hw]⟩

theorem findMarker_pyStrip_none {s : List Char}
    (h : findMarker s = none) : findMarker (pyStrip s) = none := by
  have hdw : findMarker (s.dropWhile isPySpace) = none := by
    have hdecomp := List.takeWhile_append_dropWhile (p := isPySpace) (l := s)
    rw [← hdecomp] at h
    exact (findMarker_append_none h).2
  rcases rstrip_decomp (s.dropWhile isPySpace) with ⟨w, hw⟩
  rw [hw] at hdw
  exact (findMarker_append_none hdw).1

theorem markerMatch_none_of_findMarker {st : List Char}
    (h : findMarker st = none) : markerMatch st = none := by
  match st with
  | [] => rfl
  | [_] => rfl
  | c1 :: c2 :: r =>
    rw [findMarker] at h
    rw [markerMatch]
    split at h
    · exact absurd h (by simp)
    · rename_i hpair
      rw [if_neg hpair]

theorem splitLines_ne_nil (s : List Char) : splitLines s ≠ [] := by
  match s with
  | [] => simp [splitLines]
  | c :: rest =>
    rw [splitLines]
    by_cases h : c = '\n'
    · simp [h]
    · rw [if_neg h]
      rcases hsl : splitLines rest with _ | ⟨l, ls⟩ <;> simp

theorem splitLines_decomp (s : List Char) {l : List Char} {ls : List (List Char)}
    (h : splitLines s = l :: ls) :
    (s = l ∧ ls = []) ∨ ∃ v, s = l ++ '\n' :: v ∧ splitLines v = ls := by
  induction s generalizing l ls with
  | nil =>
    rw [splitLines] at h
    cases h
    exact Or.inl ⟨rfl, rfl⟩
  | cons c rest ih =>
    rw [splitLines] at h
    by_cases hc : c = '\n'
    · rw [if_pos hc] at h
      cases h
      subst hc
      exact Or.inr ⟨rest, rfl, rfl⟩
    · rw [if_neg hc] at h
      rcases hsl : splitLines rest with _ | ⟨l0, ls0⟩
      · exact absurd hsl (splitLines_ne_nil rest)
      · rw [hsl] at h
        cases h
        rcases ih hsl with ⟨hrest, hnil⟩ | ⟨v, hrest, hv⟩
        · exact Or.inl ⟨by rw [hrest], hnil⟩
        · exact Or.inr ⟨v, by rw [hrest, List.cons_append], hv⟩

theorem findMarker_none_lines :
    ∀ (n : Nat) (s : List Char), s.length ≤ n → findMarker s = none →
      ∀ l ∈ splitLines s, findMarker l = none := by
  intro n
  induction n with
  | zero =>
    intro s hlen hm l hl
    have : s = [] := List.length_eq_zero.mp (Nat.le_zero.mp hlen)
    subst this
    rw [splitLines] at hl
    simp at hl
    subst hl
    rfl
  | succ n ih =>
    intro s hlen hm l hl
    rcases hsl : splitLines s with _ | ⟨l0, ls0⟩
    · exact absurd hsl (splitLines_ne_nil s)
    · rw [hsl] at hl
      rcases splitLines_decomp s hsl with ⟨hs, hnil⟩ | ⟨v, hs, hv⟩
      · subst hnil
        simp at hl
        subst hl
        rwa [← hs]
      · rcases List.mem_cons.mp hl with rfl | hl2
        · rw [hs] at hm
          exact (findMarker_append_none hm).1
        · rw [hs] at hm hlen
          have hm2 : findMarker v = none := by
            have : l0 ++ '\n' :: v = (l0 ++ ['\n']) ++ v := by simp
            rw [this] at hm
            exact (findMarker_append_none hm).2
          have hlen2 : v.length ≤ n := by
            simp only [List.length_append, List.length_cons] at hlen
            omega
          exact ih v hlen2 hm2 l (hv ▸ hl2)

theorem lineScanAux_no_marker (lines : List (List Char)) (m : OptMap)
    (h : ∀ l ∈ lines, markerMatch (pyStrip l) = none) :
    lineScanAux lines m = m := by
  induction lines generalizing m with
  | nil => rfl
  | cons l rest ih =>
    rw [lineScanAux]
    rw [h l (List.mem_cons_self _ _)]
    exact ih m fun l2 hl2 => h l2 (List.mem_cons_of_mem _ hl2)

theorem regexSweepOptions_none {s : List Char}
    (h : findMarker s = none) : regexSweepOptions s = {} := by
  unfold regexSweepOptions regexSweep
  rcases hn : s.length with _ | n
  · rfl
  · rw [regexSweepFuel, h]
    rfl

/-! ## C9: fallback questions without option markers never reach the output -/

/-- C9: every question produced by the whole-document fallback whose
sentence text contains no option-marker substring ends with all five options
empty after the detail pass, is rejected by `should_ignore_question`, and
therefore only increments the ignored counter of the output filter — it
never contributes a question to the returned list. -/
theorem c9_fallback_without_markers (qs : List Question) (t : String)
    (q : Question) (h5 : qs.length < 5)
    (hq : q ∈ (fallbackQuestions qs t).drop qs.length)
    (hm : findMarker q.full_text.data = none) :
    ((parseQuestionDetails q).option_a = "" ∧ (parseQuestionDetails q).option_b = ""
     ∧ (parseQuestionDetails q).option_c = "" ∧ (parseQuestionDetails q).option_d = ""
     ∧ (parseQuestionDetails q).option_e = "")
    ∧ shouldIgnoreQuestion (parseQuestionDetails q) = true
    ∧ ∀ (md : MetaData) (pre post : List Question),
        (filterQuestions md (pre ++ parseQuestionDetails q :: post)).1
          = (filterQuestions md (pre ++ post)).1
        ∧ (filterQuestions md (pre ++ parseQuestionDetails q :: post)).2
          = (filterQuestions md (pre ++ post)).2 + 1 := by
  have hqb : q ∈ buildFallback (qs.length + 1) (validSentences t.data) := by
    unfold fallbackQuestions at hq
    rw [if_pos h5] at hq
    rwa [List.drop_left] at hq
  have hfields : q.option_a = "" ∧ q.option_b = "" ∧ q.option_c = ""
      ∧ q.option_d = "" ∧ q.option_e = "" := by
    have : ∀ (vs : List (List Char)) (start : Nat),
        q ∈ buildFallback start vs →
        q.option_a = "" ∧ q.option_b = "" ∧ q.option_c = ""
          ∧ q.option_d = "" ∧ q.option_e = "" := by
      intro vs
      induction vs with
      | nil => intro start hmem; simp [buildFallback] at hmem
      | cons w ws ih =>
        intro start hmem
        rcases List.mem_cons.mp hmem with rfl | hmem2
        · exact ⟨rfl, rfl, rfl, rfl, rfl⟩
        · exact ih (start + 1) hmem2
    exact this _ _ hqb
  have hlm : lineScanOptions q.full_text.data = {} := by
    unfold lineScanOptions
    apply lineScanAux_no_marker
    intro l hl
    exact markerMatch_none_of_findMarker (findMarker_pyStrip_none
      (findMarker_none_lines q.full_text.data.length q.full_text.data
        le_rfl hm l hl))
  have hrm : regexSweepOptions q.full_text.data = {} := regexSweepOptions_none hm
  have hmm : (if (lineScanOptions q.full_text.data).isEmptyM
      then regexSweepOptions q.full_text.data
      else lineScanOptions q.full_text.data) = ({} : OptMap) := by
    rw [hlm, hrm]
    rfl
  have hopts : (parseQuestionDetails q).option_a = q.option_a
      ∧ (parseQuestionDetails q).option_b = q.option_b
      ∧ (parseQuestionDetails q).option_c = q.option_c
      ∧ (parseQuestionDetails q).option_d = q.option_d
      ∧ (parseQuestionDetails q).option_e = q.option_e := by
    unfold parseQuestionDetails
    dsimp only
    rw [hmm]
    simp [applyOptions]
  have hempty : (parseQuestionDetails q).option_a = ""
      ∧ (parseQuestionDetails q).option_b = ""
      ∧ (parseQuestionDetails q).option_c = ""
      ∧ (parseQuestionDetails q).option_d = ""
      ∧ (parseQuestionDetails q).option_e = "" := by
    rw [hopts.1, hopts.2.1, hopts.2.2.1, hopts.2.2.2.1, hopts.2.2.2.2]
    exact hfields
  have hign : shouldIgnoreQuestion (parseQuestionDetails q) = true := by
    apply shouldIgnore_of_allOptionsEmpty
    apply (allOptionsEmpty_iff _).mpr
    rw [hempty.1, hempty.2.1, hempty.2.2.1, hempty.2.2.2.1, hempty.2.2.2.2]
    exact ⟨rfl, rfl, rfl, rfl, rfl⟩
  refine ⟨hempty, hign, ?_⟩
  intro md pre post
  induction pre with
  | nil => simp [filterQuestions, hign]
  | cons p ps ih =>
    by_cases hp : shouldIgnoreQuestion p <;>
      simp [filterQuestions, hp, ih.1, ih.2]

def c9WitnessQ : Question := mkFallbackQuestion 1 "Was ist das Herz gut?".data

/-- Witness for C9 at a concrete marker-free fallback question. -/
theorem c9_fallback_without_markers_witness :
    shouldIgnoreQuestion (parseQuestionDetails c9WitnessQ) = true
    ∧ (filterQuestions {} [parseQuestionDetails c9WitnessQ]).1 = []
    ∧ (filterQuestions {} [parseQuestionDetails c9WitnessQ]).2 = 1 := by
  have h := c9_fallback_without_markers [] "Was ist das Herz gut?" c9WitnessQ
    (by decide) (by decide) (by decide)
  refine ⟨h.2.1, ?_, ?_⟩
  · simpa using (h.2.2 {} [] []).1
  · simpa using (h.2.2 {} [] []).2

/-! ## C8: the Field Parser fills only empty fields -/

/-- C8: `parse_question_details` is a frame-respecting merge — every field
among the five options, subject, correct answer and comment that is
non-empty beforehand is unchanged afterwards, and a parse miss (no entry in
the option maps, no metadata match) leaves the field untouched; the
function is total, so no input raises. -/
theorem c8_fill_only_empty (q : Question) :
    ((q.option_a ≠ "" → (parseQuestionDetails q).option_a = q.option_a)
     ∧ (q.option_b ≠ "" → (parseQuestionDetails q).option_b = q.option_b)
     ∧ (q.option_c ≠ "" → (parseQuestionDetails q).option_c = q.option_c)
     ∧ (q.option_d ≠ "" → (parseQuestionDetails q).option_d = q.option_d)
     ∧ (q.option_e ≠ "" → (parseQuestionDetails q).option_e = q.option_e))
    ∧ ((q.subject ≠ "" → (parseQuestionDetails q).subject = q.subject)
       ∧ (q.correct_answer ≠ "" →
            (parseQuestionDetails q).correct_answer = q.correct_answer)
       ∧ (q.comment ≠ "" → (parseQuestionDetails q).comment = q.comment))
    ∧ (((if (lineScanOptions q.full_text.data).isEmptyM
          then regexSweepOptions q.full_text.data
          else lineScanOptions q.full_text.data).a.isNone →
            (parseQuestionDetails q).option_a = q.option_a)
       ∧ ((if (lineScanOptions q.full_text.data).isEmptyM
          then regexSweepOptions q.full_text.data
          else lineScanOptions q.full_text.data).e.isNone →
            (parseQuestionDetails q).option_e = q.option_e)
       ∧ (extractMeta "Fach:".data ["Antwort:".data, "Kommentar:".data]
            q.full_text.data = none →
            (parseQuestionDetails q).subject = q.subject)
       ∧ (extractMeta "Antwort:".data ["Fach:".data, "Kommentar:".data]
            q.full_text.data = none →
            (parseQuestionDetails q).correct_answer = q.correct_answer)
       ∧ (extractMeta "Kommentar:".data ["Fach:".data, "Antwort:".data]
            q.full_text.data = none →
            (parseQuestionDetails q).comment = q.comment)) := by
  have ha : (parseQuestionDetails q).option_a
      = (applyOptions q (if (lineScanOptions q.full_text.data).isEmptyM
          then regexSweepOptions q.full_text.data
          else lineScanOptions q.full_text.data)).option_a := rfl
  have hb : (parseQuestionDetails q).option_b
      = (applyOptions q (if (lineScanOptions q.full_text.data).isEmptyM
          then regexSweepOptions q.full_text.data
          else lineScanOptions q.full_text.data)).option_b := rfl
  have hc : (parseQuestionDetails q).option_c
      = (applyOptions q (if (lineScanOptions q.full_text.data).isEmptyM
          then regexSweepOptions q.full_text.data
          else lineScanOptions q.full_text.data)).option_c := rfl
  have hd : (parseQuestionDetails q).option_d
      = (applyOptions q (if (lineScanOptions q.full_text.data).isEmptyM
          then regexSweepOptions q.full_text.data
          else lineScanOptions q.full_text.data)).option_d := rfl
  have he : (parseQuestionDetails q).option_e
      = (applyOptions q (if (lineScanOptions q.full_text.data).isEmptyM
          then regexSweepOptions q.full_text.data
          else lineScanOptions q.full_text.data)).option_e := rfl
  have hs : (parseQuestionDetails q).subject
      = (if q.subject = "" then
          match extractMeta "Fach:".data ["Antwort:".data, "Kommentar:".data]
              q.full_text.data with
          | some v => String.mk v
          | none => q.subject
        else q.subject) := rfl
  have hans : (parseQuestionDetails q).correct_answer
      = (if q.correct_answer = "" then
          match extractMeta "Antwort:".data ["Fach:".data, "Kommentar:".data]
              q.full_text.data with
          | some v => String.mk v
          | none => q.correct_answer
        else q.correct_answer) := rfl
  have hcom : (parseQuestionDetails q).comment
      = (if q.comment = "" then
          match extractMeta "Kommentar:".data ["Fach:".data, "Antwort:".data]
              q.full_text.data with
          | some v => String.mk v
          | none => q.comment
        else q.comment) := rfl
  refine ⟨⟨?_, ?_, ?_, ?_, ?_⟩, ⟨?_, ?_, ?_⟩, ?_, ?_, ?_, ?_, ?_⟩
  · intro hne
    rw [ha]
    simp [applyOptions, hne]
  · intro hne
    rw [hb]
    simp [applyOptions, hne]
  · intro hne
    rw [hc]
    simp [applyOptions, hne]
  · intro hne
    rw [hd]
    simp [applyOptions, hne]
  · intro hne
    rw [he]
    simp [applyOptions, hne]
  · intro hne
    rw [hs, if_neg hne]
  · intro hne
    rw [hans, if_neg hne]
  · intro hne
    rw [hcom, if_neg hne]
  · intro hnone
    rw [ha]
    simp [applyOptions, Option.isNone_iff_eq_none.mp hnone]
  · intro hnone
    rw [he]
    simp [applyOptions, Option.isNone_iff_eq_none.mp hnone]
  · intro hnone
    rw [hs, hnone]
    split <;> rfl
  · intro hnone
    rw [hans, hnone]
    split <;> rfl
  · intro hnone
    rw [hcom, hnone]
    split <;> rfl

def c8WitnessQ : Question :=
  { id := 4, question := "Wie?", full_text := "A) neu\nFach: Chemie"
    option_a := "alt", option_b := "", subject := "Physik"
    correct_answer := "B", comment := "fertig" }

/-- Witness for C8: pre-populated fields survive the detail pass. -/
theorem c8_fill_only_empty_witness :
    (parseQuestionDetails c8WitnessQ).option_a = c8WitnessQ.option_a
    ∧ (parseQuestionDetails c8WitnessQ).subject = c8WitnessQ.subject
    ∧ (parseQuestionDetails c8WitnessQ).correct_answer
        = c8WitnessQ.correct_answer
    ∧ (parseQuestionDetails c8WitnessQ).comment = c8WitnessQ.comment :=
  ⟨(c8_fill_only_empty c8WitnessQ).1.1 (by decide),
   (c8_fill_only_empty c8WitnessQ).2.1.1 (by decide),
   (c8_fill_only_empty c8WitnessQ).2.1.2.1 (by decide),
   (c8_fill_only_empty c8WitnessQ).2.1.2.2 (by decide)⟩

/-! ## C7: marker-style invariance of option extraction

`swapMarkers` is the claim's transformation: every option marker spelled
`X)` (X in A..E) becomes `X/`.  It is a position-preserving map in which a
`)` is replaced exactly when the preceding original character is an option
letter, threaded as `prev`. -/

def swapAux (prev : Char) : List Char → List Char
  | [] => []
  | c :: rest => (if c = ')' && isOptLetter prev then '/' else c) :: swapAux c rest

/-- The initial previous character is immaterial as long as it is not an
option letter; a newline is used. -/
def swapMarkers (s : List Char) : List Char := swapAux '\n' s

/-- No `X)` marker occurrence, with the preceding context character
threaded through (the characters swapped by `swapMarkers`). -/
def pairFree : Char → List Char → Bool
  | _, [] => true
  | prev, c :: rest => !(c = ')' && isOptLetter prev) && pairFree c rest

/-- A line in which the only place an option-marker substring may occur is
at the very start of the stripped line (the marker position of the line
scan): the `X)` spelling occurs nowhere else. -/
def lineOk (l : List Char) : Bool :=
  match pyStrip l with
  | c1 :: c2 :: rest =>
    if isOptLetter c1 && isSepChar c2 then pairFree c2 rest
    else pairFree '\n' (c1 :: c2 :: rest)
  | st => pairFree '\n' st

/-- Every option-marker occurrence of the text is line-leading. -/
def markersLineLeading (s : List Char) : Bool := (splitLines s).all lineOk

/-- C7 counterexample: the line scan is not invariant under the marker
swap, because option content keeps marker-shaped substrings verbatim:
`A) foo B) bar` yields option A `foo B) bar`, the swapped text yields
`foo B/ bar`. -/
theorem c7_marker_invariance_counterexample :
    swapMarkers "A) foo B) bar".data = "A/ foo B/ bar".data
    ∧ lineScanOptions (swapMarkers "A) foo B) bar".data)
        ≠ lineScanOptions "A) foo B) bar".data
    ∧ lineScanOptions "A) foo B) bar".data
        = { a := some "foo B) bar".data }
    ∧ lineScanOptions (swapMarkers "A) foo B) bar".data)
        = { a := some "foo B/ bar".data } := by decide

theorem swapAux_length (p : Char) (l : List Char) :
    (swapAux p l).length = l.length := by
  induction l generalizing p with
  | nil => rfl
  | cons c rest ih => simp [swapAux, ih]

theorem isOptLetter_not_rparen {c : Char} (h : isOptLetter c = true) :
    ¬ c = ')' := by
  intro hc
  subst hc
  simp [isOptLetter] at h

theorem isPySpace_not_letter {c : Char} (h : isPySpace c = true) :
    isOptLetter c = false := by
  rcases Bool.or_eq_true_iff.mp h with h1 | h1
  · rcases Bool.or_eq_true_iff.mp h1 with h2 | h2
    · rcases Bool.or_eq_true_iff.mp h2 with h3 | h3
      · rcases Bool.or_eq_true_iff.mp h3 with h4 | h4
        · rcases Bool.or_eq_true_iff.mp h4 with h5 | h5 <;>
            · rw [show c = _ from by exact_mod_cast of_decide_eq_true h5]
              rfl
        · rw [show c = _ from by exact_mod_cast of_decide_eq_true h4]
          rfl
      · rw [show c = _ from by exact_mod_cast of_decide_eq_true h3]
        rfl
    · rw [show c = _ from by exact_mod_cast of_decide_eq_true h2]
      rfl
  · rw [show c = _ from by exact_mod_cast of_decide_eq_true h1]
    rfl

/-- Two non-letter contexts act identically. -/
theorem swapAux_nonletter (p p' : Char) (hp : isOptLetter p = false)
    (hp' : isOptLetter p' = false) (l : List Char) :
    swapAux p l = swapAux p' l := by
  cases l with
  | nil => rfl
  | cons c rest => simp [swapAux, hp, hp']

/-- Any context acts like the canonical one when the head is not `)`. -/
theorem swapAux_head_ne {p p' : Char} {l : List Char}
    (h : l.head? ≠ some ')') : swapAux p l = swapAux p' l := by
  cases l with
  | nil => rfl
  | cons c rest =>
    have hc : ¬ c = ')' := by
      intro hc
      exact h (by rw [hc]; rfl)
    simp [swapAux, hc]

/-- Under `pairFree`, the swap is the identity. -/
theorem swapAux_pairFree {p : Char} {l : List Char}
    (h : pairFree p l = true) : swapAux p l = l := by
  induction l generalizing p with
  | nil => rfl
  | cons c rest ih =>
    rw [pairFree, Bool.and_eq_true, Bool.not_eq_true'] at h
    rw [swapAux, if_neg (by simp [h.1]), ih h.2]

/-- The swap leaves each character's whitespace-ness unchanged. -/
theorem swapAux_head_ws (p c : Char) :
    isPySpace (if c = ')' && isOptLetter p then '/' else c) = isPySpace c := by
  by_cases h : (c = ')' && isOptLetter p) = true
  · rw [if_pos h]
    rw [Bool.and_eq_true] at h
    rw [show c = ')' from of_decide_eq_true h.1]
    rfl
  · rw [if_neg h]

theorem takeWhile_ws_swap (l : List Char) : ∀ p, isOptLetter p = false →
    (swapAux p l).takeWhile isPySpace = l.takeWhile isPySpace := by
  induction l with
  | nil => intro p hp; rfl
  | cons c rest ih =>
    intro p hp
    rw [swapAux]
    by_cases hws : isPySpace c = true
    · have hc : ¬ c = ')' := by
        intro hc
        rw [hc] at hws
        simp [isPySpace] at hws
      rw [if_neg (by simp [hc])]
      rw [List.takeWhile_cons, List.takeWhile_cons, hws]
      simp only [if_true]
      rw [ih c (isPySpace_not_letter hws)]
    · have hnw : isPySpace (if c = ')' && isOptLetter p then '/' else c) = false := by
        rw [swapAux_head_ws]
        simpa using hws
      rw [List.takeWhile_cons, List.takeWhile_cons, hnw]
      simp [hws]

theorem dropWhile_ws_swap (l : List Char) : ∀ p, isOptLetter p = false →
    (swapAux p l).dropWhile isPySpace = swapAux '\n' (l.dropWhile isPySpace) := by
  induction l with
  | nil => intro p hp; rfl
  | cons c rest ih =>
    intro p hp
    rw [swapAux]
    by_cases hws : isPySpace c = true
    · have hc : ¬ c = ')' := by
        intro hc
        rw [hc] at hws
        simp [isPySpace] at hws
      rw [if_neg (by simp [hc])]
      rw [List.dropWhile_cons, List.dropWhile_cons, hws]
      simp only [if_true]
      rw [ih c (isPySpace_not_letter hws)]
    · have hnw : isPySpace (if c = ')' && isOptLetter p then '/' else c) = false := by
        rw [swapAux_head_ws]
        simpa using hws
      rw [List.dropWhile_cons, List.dropWhile_cons, hnw]
      simp only [hws]
      simp only [Bool.false_eq_true, if_false]
      rw [← swapAux]
      exact swapAux_nonletter p '\n' hp (by decide) (c :: rest)

theorem rstrip_swap (m : List Char) : ∀ p, rstrip (swapAux p m) = swapAux p (rstrip m) := by
  induction m with
  | nil => intro p; rfl
  | cons c rest ih =>
    intro p
    rcases hr : rstrip rest with _ | ⟨r0, rs⟩
    · have h2 : rstrip (swapAux c rest) = [] := by
        rw [ih c, hr]
        rfl
      have h3 : rstrip (swapAux p (c :: rest))
          = if isPySpace (if c = ')' && isOptLetter p then '/' else c) = true
            then [] else [if c = ')' && isOptLetter p then '/' else c] := by
        rw [show swapAux p (c :: rest)
            = (if c = ')' && isOptLetter p then '/' else c) :: swapAux c rest from rfl]
        rw [rstrip, h2]
      have h1 : rstrip (c :: rest) = if isPySpace c = true then [] else [c] := by
        rw [rstrip, hr]
      rw [h3, h1, swapAux_head_ws]
      by_cases hws : isPySpace c = true
      · rw [if_pos hws, if_pos hws]
        rfl
      · rw [if_neg hws, if_neg hws]
        rfl
    · have h2 : rstrip (swapAux c rest) = swapAux c (r0 :: rs) := by
        rw [ih c, hr]
      have h3 : rstrip (swapAux p (c :: rest))
          = (if c = ')' && isOptLetter p then '/' else c) :: swapAux c (r0 :: rs) := by
        rw [show swapAux p (c :: rest)
            = (if c = ')' && isOptLetter p then '/' else c) :: swapAux c rest from rfl]
        rw [rstrip, h2]
        rfl
      have h1 : rstrip (c :: rest) = c :: r0 :: rs := by
        rw [rstrip, hr]
      rw [h3, h1]
      rfl

theorem pyStrip_swap {p : Char} (hp : isOptLetter p = false) (l : List Char) :
    pyStrip (swapAux p l) = swapAux '\n' (pyStrip l) := by
  unfold pyStrip
  rw [dropWhile_ws_swap l p hp, rstrip_swap]

/-- The swap commutes with the marker search: marker positions, letters and
the trailing text are preserved. -/
theorem findMarker_swap (s : List Char) : ∀ p : Char,
    findMarker (swapAux p s)
      = (findMarker s).map (fun x => (x.1, swapAux '\n' x.2)) := by
  induction s with
  | nil => intro p; rfl
  | cons c1 t ih =>
    intro p
    match t with
    | [] =>
      rw [show swapAux p [c1]
          = [if c1 = ')' && isOptLetter p then '/' else c1] from rfl]
      rfl
    | c2 :: rest =>
      rw [show swapAux p (c1 :: c2 :: rest)
          = (if c1 = ')' && isOptLetter p then '/' else c1)
            :: (if c2 = ')' && isOptLetter c1 then '/' else c2)
            :: swapAux c2 rest from rfl]
      by_cases hpair : (isOptLetter c1 && isSepChar c2) = true
      · rw [Bool.and_eq_true] at hpair
        have hc1 : ¬ c1 = ')' := isOptLetter_not_rparen hpair.1
        rw [if_neg (by simp [hc1])]
        have hsep2 : isSepChar (if c2 = ')' && isOptLetter c1 then '/' else c2) = true := by
          by_cases h2 : (c2 = ')' && isOptLetter c1) = true
          · rw [if_pos h2]
            rfl
          · rw [if_neg h2]
            exact hpair.2
        rw [findMarker, if_pos (by rw [Bool.and_eq_true]; exact ⟨hpair.1, hsep2⟩)]
        rw [findMarker, if_pos (by rw [Bool.and_eq_true]; exact hpair)]
        have hc2 : isOptLetter c2 = false := by
          rcases Bool.or_eq_true_iff.mp hpair.2 with h2 | h2
          · rw [show c2 = ')' from of_decide_eq_true h2]
            rfl
          · rw [show c2 = '/' from of_decide_eq_true h2]
            rfl
        simp only [Option.map_some']
        rw [swapAux_nonletter c2 '\n' hc2 (by decide) rest]
      · have hpair' :
            (isOptLetter (if c1 = ')' && isOptLetter p then '/' else c1)
              && isSepChar (if c2 = ')' && isOptLetter c1 then '/' else c2)) = false := by
          by_cases h1 : (c1 = ')' && isOptLetter p) = true
          · rw [if_pos h1]
            rfl
          · rw [if_neg h1]
            by_cases h2 : (c2 = ')' && isOptLetter c1) = true
            · rw [Bool.and_eq_true] at h2
              have hc2' : c2 = ')' := of_decide_eq_true h2.1
              have hcontra : (isOptLetter c1 && isSepChar c2) = true := by
                rw [Bool.and_eq_true]
                refine ⟨h2.2, ?_⟩
                rw [hc2']
                rfl
              exact absurd hcontra hpair
            · rw [if_neg h2]
              simpa using hpair
        have hL : findMarker ((if c1 = ')' && isOptLetter p then '/' else c1)
              :: (if c2 = ')' && isOptLetter c1 then '/' else c2) :: swapAux c2 rest)
            = findMarker ((if c2 = ')' && isOptLetter c1 then '/' else c2)
                :: swapAux c2 rest) := by
          rw [findMarker]
          rw [if_neg (by rw [hpair']; exact Bool.false_ne_true)]
        have hR : findMarker (c1 :: c2 :: rest) = findMarker (c2 :: rest) := by
          rw [findMarker]
          rw [if_neg hpair]
        rw [hL, hR]
        have := ih c1
        rw [show swapAux c1 (c2 :: rest)
            = (if c2 = ')' && isOptLetter c1 then '/' else c2)
              :: swapAux c2 rest from rfl] at this
        exact this

theorem isOptLetter_not_ws {c : Char} (h : isOptLetter c = true) :
    isPySpace c = false := by
  rcases Bool.or_eq_true_iff.mp h with h1 | h1
  · rcases Bool.or_eq_true_iff.mp h1 with h2 | h2
    · rcases Bool.or_eq_true_iff.mp h2 with h3 | h3
      · rcases Bool.or_eq_true_iff.mp h3 with h4 | h4 <;>
          · rw [show c = _ from of_decide_eq_true (by exact h4)]
            rfl
      · rw [show c = _ from of_decide_eq_true h3]
        rfl
    · rw [show c = _ from of_decide_eq_true h2]
      rfl
  · rw [show c = _ from of_decide_eq_true h1]
    rfl

/-- Under the swap with a non-letter context, the head-pair test is stable. -/
theorem headIsMarker_swap {q : Char} (hq : isOptLetter q = false)
    (t : List Char) : headIsMarker (swapAux q t) = headIsMarker t := by
  match t with
  | [] => rfl
  | [d] =>
    rw [show swapAux q [d] = [if d = ')' && isOptLetter q then '/' else d] from rfl]
    rfl
  | d1 :: d2 :: dt =>
    rw [show swapAux q (d1 :: d2 :: dt)
        = (if d1 = ')' && isOptLetter q then '/' else d1)
          :: (if d2 = ')' && isOptLetter d1 then '/' else d2)
          :: swapAux d2 dt from rfl]
    rw [if_neg (by simp [hq])]
    rw [headIsMarker, headIsMarker]
    by_cases h1 : isOptLetter d1 = true
    · by_cases h2 : (d2 = ')' && isOptLetter d1) = true
      · rw [if_pos h2]
        rw [Bool.and_eq_true] at h2
        rw [show d2 = ')' from of_decide_eq_true h2.1]
        rfl
      · rw [if_neg h2]
    · simp [h1]

theorem startsWithL_swap (w : List Char)
    (hw : ∀ c ∈ w, ¬ c = ')' ∧ ¬ c = '/') :
    ∀ (t : List Char) (p : Char), startsWithL w (swapAux p t) = startsWithL w t := by
  induction w with
  | nil =>
    intro t p
    cases t <;> rfl
  | cons wc ws' ih =>
    intro t p
    cases t with
    | nil => rfl
    | cons c rest =>
      rw [show swapAux p (c :: rest)
          = (if c = ')' && isOptLetter p then '/' else c) :: swapAux c rest from rfl]
      rw [startsWithL, startsWithL]
      by_cases hcond : (c = ')' && isOptLetter p) = true
      · rw [if_pos hcond]
        rw [Bool.and_eq_true] at hcond
        have hc : c = ')' := of_decide_eq_true hcond.1
        subst hc
        have hw1 := hw wc (List.mem_cons_self _ _)
        simp [hw1.1, hw1.2]
      · rw [if_neg hcond]
        rw [ih (fun c hc => hw c (List.mem_cons_of_mem _ hc)) rest c]

/-- Swap with a context excluded from forming a pair at the head commutes
with whitespace dropping. -/
theorem dropWhile_ws_swap_hp (u : List Char) (p : Char)
    (hp : ¬(isOptLetter p = true ∧ u.head? = some ')')) :
    (swapAux p u).dropWhile isPySpace = swapAux '\n' (u.dropWhile isPySpace) := by
  cases u with
  | nil => rfl
  | cons c rest =>
    have hc' : (if c = ')' && isOptLetter p then '/' else c) = c := by
      by_cases hc : c = ')'
      · have hl : isOptLetter p = false := by
          by_contra hli
          exact hp ⟨by simpa using hli, by rw [hc]; rfl⟩
        simp [hl]
      · simp [hc]
    rw [show swapAux p (c :: rest) = (if c = ')' && isOptLetter p then '/' else c)
        :: swapAux c rest from rfl, hc']
    by_cases hws : isPySpace c = true
    · rw [List.dropWhile_cons, List.dropWhile_cons]
      simp only [hws, if_true]
      exact dropWhile_ws_swap rest c (isPySpace_not_letter hws)
    · rw [List.dropWhile_cons, List.dropWhile_cons]
      simp only [hws]
      simp only [Bool.false_eq_true, if_false]
      rw [show swapAux '\n' (c :: rest)
          = (if c = ')' && isOptLetter '\n' then '/' else c) :: swapAux c rest from rfl]
      rw [if_neg (by simp [show isOptLetter '\n' = false from rfl])]

theorem swapAux_eq_nil_iff (p : Char) (l : List Char) :
    (swapAux p l = []) ↔ l = [] := by
  constructor
  · intro h
    have := swapAux_length p l
    rw [h] at this
    exact List.length_eq_zero.mp this.symm
  · intro h
    subst h
    rfl

/-- The sweep-stop lookahead is invariant under the swap. -/
theorem sweepStop_swap (u : List Char) (p : Char)
    (hp : ¬(isOptLetter p = true ∧ u.head? = some ')')) :
    sweepStop (swapAux p u) = sweepStop u := by
  unfold sweepStop
  rw [dropWhile_ws_swap_hp u p hp]
  dsimp only
  rw [headIsMarker_swap (by decide) (u.dropWhile isPySpace)]
  rw [startsWithL_swap "Fach:".data (by decide) (u.dropWhile isPySpace) '\n']
  rw [startsWithL_swap "Antwort:".data (by decide) (u.dropWhile isPySpace) '\n']
  rw [startsWithL_swap "Kommentar:".data (by decide) (u.dropWhile isPySpace) '\n']
  have hemp : (swapAux p u).isEmpty = u.isEmpty := by
    cases u with
    | nil => rfl
    | cons c rest =>
      rw [show swapAux p (c :: rest) = (if c = ')' && isOptLetter p then '/' else c)
          :: swapAux c rest from rfl]
      rfl
  rw [hemp]
  have hnl : (swapAux p u == ['\n']) = (u == ['\n']) := by
    cases u with
    | nil => rfl
    | cons c rest =>
      have hc' : (if c = ')' && isOptLetter p then '/' else c) = c := by
        by_cases hc : c = ')'
        · have hl : isOptLetter p = false := by
            by_contra hli
            exact hp ⟨by simpa using hli, by rw [hc]; rfl⟩
          simp [hl]
        · simp [hc]
      rw [show swapAux p (c :: rest) = (if c = ')' && isOptLetter p then '/' else c)
          :: swapAux c rest from rfl, hc']
      show (c == '\n' && swapAux c rest == []) = (c == '\n' && rest == [])
      by_cases hr : rest = []
      · subst hr
        rfl
      · have h1 : (swapAux c rest == []) = false := by
          rcases hr2 : swapAux c rest with _ | ⟨x, xs⟩
          · exact absurd ((swapAux_eq_nil_iff c rest).mp hr2) hr
          · rfl
        have h2 : (rest == []) = false := by
          rcases hr3 : rest with _ | ⟨x, xs⟩
          · exact absurd hr3 hr
          · rfl
        rw [h1, h2]
  rw [hnl]

/-- The lazy capture of the sweep is invariant: the captured text is
unchanged and the resumption point is the swap image of the original. -/
theorem captureUntil_sweepStop_swap :
    ∀ (u : List Char) (p : Char),
    ¬(isOptLetter p = true ∧ u.head? = some ')') →
    captureUntil sweepStop (swapAux p u)
      = ((captureUntil sweepStop u).1, swapAux '\n' (captureUntil sweepStop u).2) := by
  intro u
  induction u with
  | nil => intro p hp; rfl
  | cons c rest ih =>
    intro p hp
    have hc' : (if c = ')' && isOptLetter p then '/' else c) = c := by
      by_cases hc : c = ')'
      · have hl : isOptLetter p = false := by
          by_contra hli
          exact hp ⟨by simpa using hli, by rw [hc]; rfl⟩
        simp [hl]
      · simp [hc]
    have hceq : swapAux p (c :: rest) = c :: swapAux c rest := by
      rw [show swapAux p (c :: rest) = (if c = ')' && isOptLetter p then '/' else c)
          :: swapAux c rest from rfl, hc']
    have hstop : sweepStop (c :: swapAux c rest) = sweepStop (c :: rest) := by
      have := sweepStop_swap (c :: rest) p hp
      rwa [hceq] at this
    rw [hceq]
    by_cases hs : sweepStop (c :: rest) = true
    · rw [captureUntil, if_pos (by rw [hstop]; exact hs)]
      rw [captureUntil, if_pos hs]
      refine congrArg (fun x => (([] : List Char), x)) ?_
      rw [show swapAux '\n' (c :: rest)
          = (if c = ')' && isOptLetter '\n' then '/' else c) :: swapAux c rest from rfl]
      rw [if_neg (by simp [show isOptLetter '\n' = false from rfl])]
    · have hp2 : ¬(isOptLetter c = true ∧ rest.head? = some ')') := by
        rintro ⟨hlc, hr⟩
        apply hs
        unfold sweepStop
        have hdw : (c :: rest).dropWhile isPySpace = c :: rest := by
          rw [List.dropWhile_cons]
          simp [isOptLetter_not_ws hlc]
        dsimp only
        rw [hdw]
        rcases rest with _ | ⟨r0, rtail⟩
        · simp at hr
        · have hr0 : r0 = ')' := by
            simpa using hr
          subst hr0
          simp [headIsMarker, hlc, isSepChar]
      rw [captureUntil, if_neg (by rw [hstop]; exact hs)]
      rw [captureUntil, if_neg hs]
      rw [ih c hp2]

/-- The regex sweep (method 2) is marker-style invariant at every fuel. -/
theorem regexSweepFuel_swap :
    ∀ (fuel : Nat) (s : List Char) (p : Char),
    regexSweepFuel fuel (swapAux p s) = regexSweepFuel fuel s := by
  intro fuel
  induction fuel with
  | zero => intro s p; rfl
  | succ f ih =>
    intro s p
    rw [regexSweepFuel, regexSweepFuel]
    rw [findMarker_swap s p]
    rcases hm : findMarker s with _ | ⟨c, rest⟩
    · rfl
    · simp only [Option.map_some']
      rw [dropWhile_ws_swap rest '\n' (by decide)]
      rw [captureUntil_sweepStop_swap (rest.dropWhile isPySpace) '\n'
        (by rintro ⟨hli, -⟩; exact absurd hli (by decide))]
      rw [ih _ '\n']

/-- Method 2 as a whole is marker-style invariant. -/
theorem regexSweepOptions_swap (s : List Char) :
    regexSweepOptions (swapMarkers s) = regexSweepOptions s := by
  unfold regexSweepOptions regexSweep swapMarkers
  rw [swapAux_length]
  rw [regexSweepFuel_swap s.length s '\n']

/-- The swap maps each line of the text to its swapped line: marker pairs
never span a newline, and every line starts after a non-letter character. -/
theorem splitLines_swapAux : ∀ (s : List Char) (p : Char) {l : List Char}
    {ls : List (List Char)}, splitLines s = l :: ls →
    splitLines (swapAux p s) = swapAux p l :: ls.map (swapAux '\n') := by
  intro s
  induction s with
  | nil =>
    intro p l ls h
    rw [splitLines] at h
    cases h
    rfl
  | cons c rest ih =>
    intro p l ls h
    rw [splitLines] at h
    by_cases hc : c = '\n'
    · rw [if_pos hc] at h
      cases h
      subst hc
      rw [show swapAux p ('\n' :: rest) = '\n' :: swapAux '\n' rest from by
        rw [swapAux]
        rw [if_neg (by simp)]]
      rw [splitLines, if_pos rfl]
      rcases hsl : splitLines rest with _ | ⟨l0, ls0⟩
      · exact absurd hsl (splitLines_ne_nil rest)
      · rw [ih '\n' hsl]
        rfl
    · rw [if_neg hc] at h
      rcases hsl : splitLines rest with _ | ⟨l0, ls0⟩
      · exact absurd hsl (splitLines_ne_nil rest)
      · rw [hsl] at h
        cases h
        rw [show swapAux p (c :: rest)
            = (if c = ')' && isOptLetter p then '/' else c) :: swapAux c rest from rfl]
        rw [splitLines]
        have hc2 : ¬ (if c = ')' && isOptLetter p then '/' else c) = '\n' := by
          by_cases hx : (c = ')' && isOptLetter p) = true
          · rw [if_pos hx]
            simp
          · rw [if_neg hx]
            exact hc
        rw [if_neg hc2]
        rw [ih c hsl]
        rfl

theorem splitLines_swapMarkers (s : List Char) :
    splitLines (swapMarkers s) = (splitLines s).map (swapAux '\n') := by
  rcases hsl : splitLines s with _ | ⟨l, ls⟩
  · exact absurd hsl (splitLines_ne_nil s)
  · unfold swapMarkers
    rw [splitLines_swapAux s '\n' hsl]
    rfl

theorem isMarkerLine_swap (l : List Char) :
    isMarkerLine (swapAux '\n' l) = isMarkerLine l := by
  unfold isMarkerLine
  rw [dropWhile_ws_swap l '\n' (by decide)]
  rw [headIsMarker_swap (by decide)]

theorem startsWithCI_swap (w : List Char)
    (hw : ∀ c ∈ w, ¬ c.toLower = ')' ∧ ¬ c.toLower = '/') :
    ∀ (t : List Char) (p : Char), startsWithCI w (swapAux p t) = startsWithCI w t := by
  induction w with
  | nil =>
    intro t p
    cases t <;> rfl
  | cons wc ws' ih =>
    intro t p
    cases t with
    | nil => rfl
    | cons c rest =>
      rw [show swapAux p (c :: rest)
          = (if c = ')' && isOptLetter p then '/' else c) :: swapAux c rest from rfl]
      rw [startsWithCI, startsWithCI]
      by_cases hcond : (c = ')' && isOptLetter p) = true
      · rw [if_pos hcond]
        rw [Bool.and_eq_true] at hcond
        have hc : c = ')' := of_decide_eq_true hcond.1
        subst hc
        have hw1 := hw wc (List.mem_cons_self _ _)
        have e1 : Char.toLower '/' = '/' := by decide
        have e2 : Char.toLower ')' = ')' := by decide
        simp [e1, e2, hw1.1, hw1.2]
      · rw [if_neg hcond]
        rw [ih (fun c hc => hw c (List.mem_cons_of_mem _ hc)) rest c]

theorem isMetaLine_swap (l : List Char) :
    isMetaLine (swapAux '\n' l) = isMetaLine l := by
  unfold isMetaLine
  rw [dropWhile_ws_swap l '\n' (by decide)]
  dsimp only
  rw [startsWithCI_swap "fach:".data (by decide) _ '\n']
  rw [startsWithCI_swap "antwort:".data (by decide) _ '\n']
  rw [startsWithCI_swap "kommentar:".data (by decide) _ '\n']

/-- A marker pair at the head of the stripped line means the raw line passes
the marker-line stop test. -/
theorem isMarkerLine_of_strip {l : List Char}
    (h : headIsMarker (pyStrip l) = true) : isMarkerLine l = true := by
  unfold isMarkerLine
  rcases hst : pyStrip l with _ | ⟨c1, t⟩
  · rw [hst] at h
    simp [headIsMarker] at h
  · rcases t with _ | ⟨c2, r⟩
    · rw [hst] at h
      simp [headIsMarker] at h
    · rw [hst] at h
      rcases rstrip_decomp (l.dropWhile isPySpace) with ⟨w, hw⟩
      have hdw : l.dropWhile isPySpace = c1 :: c2 :: (r ++ w) := by
        rw [hw]
        rw [show rstrip (l.dropWhile isPySpace) = pyStrip l from rfl, hst]
        simp
      rw [hdw]
      exact h

/-- A `lineOk` line that is not a marker line has no `X)` pair at all. -/
theorem lineOk_pairFree_strip {l : List Char} (hok : lineOk l = true)
    (hnm : isMarkerLine l = false) : pairFree '\n' (pyStrip l) = true := by
  unfold lineOk at hok
  rcases hst : pyStrip l with _ | ⟨c1, t⟩
  · rfl
  · rcases t with _ | ⟨c2, r⟩
    · rw [hst] at hok
      exact hok
    · rw [hst] at hok
      have hpair : ¬ (isOptLetter c1 && isSepChar c2) = true := by
        intro hp
        have hp' : headIsMarker (pyStrip l) = true := by
          rw [hst]
          exact hp
        rw [isMarkerLine_of_strip hp'] at hnm
        exact absurd hnm (by simp)
      have hok' : (if (isOptLetter c1 && isSepChar c2) = true then pairFree c2 r
          else pairFree '\n' (c1 :: c2 :: r)) = true := hok
      rw [if_neg hpair] at hok'
      exact hok'

/-- Unfolding equation for continuation collection on a cons cell. -/
theorem takeContinuation_cons (x : List Char) (ls : List (List Char)) :
    takeContinuation (x :: ls)
    = if (isMarkerLine x || isMetaLine x) = true then []
      else (if (pyStrip x).isEmpty = true then [] else [pyStrip x])
        ++ takeContinuation ls := by
  unfold takeContinuation
  rw [List.takeWhile_cons]
  by_cases hstop : (isMarkerLine x || isMetaLine x) = true
  · rw [if_pos hstop]
    have hb : (!(isMarkerLine x || isMetaLine x)) = false := by
      simp [hstop]
    rw [hb]
    simp
  · rw [if_neg hstop]
    have hb : (!(isMarkerLine x || isMetaLine x)) = true := by
      simpa using hstop
    rw [hb]
    rw [if_pos rfl]
    rw [List.filterMap_cons]
    dsimp only
    rcases hse : (pyStrip x).isEmpty with _ | _
    · simp
    · simp

/-- Continuation collection is invariant under the swap on `lineOk` lines. -/
theorem takeContinuation_swap : ∀ (rest : List (List Char)),
    (∀ l ∈ rest, lineOk l = true) →
    takeContinuation (rest.map (swapAux '\n')) = takeContinuation rest := by
  intro rest
  induction rest with
  | nil => intro h; rfl
  | cons l0 rs ih =>
    intro h
    rw [List.map_cons, takeContinuation_cons, takeContinuation_cons]
    rw [isMarkerLine_swap, isMetaLine_swap]
    rw [ih (fun l hl => h l (List.mem_cons_of_mem _ hl))]
    by_cases hstop : (isMarkerLine l0 || isMetaLine l0) = true
    · rw [if_pos hstop, if_pos hstop]
    · have hde : (isMarkerLine l0 || isMetaLine l0) = false := by
        simpa using hstop
      have hnm : isMarkerLine l0 = false := by
        rcases hx : isMarkerLine l0 with _ | _
        · rfl
        · rw [hx] at hde
          simp at hde
      have hid : pyStrip (swapAux '\n' l0) = pyStrip l0 := by
        rw [pyStrip_swap (by decide) l0]
        exact swapAux_pairFree (lineOk_pairFree_strip
          (h l0 (List.mem_cons_self _ _)) hnm)
      rw [hid]

theorem isSepChar_swap_pair (c1 c2 : Char) :
    isSepChar (if c2 = ')' && isOptLetter c1 then '/' else c2) = isSepChar c2 := by
  by_cases h : (c2 = ')' && isOptLetter c1) = true
  · rw [if_pos h]
    rw [Bool.and_eq_true] at h
    rw [show c2 = ')' from of_decide_eq_true h.1]
    rfl
  · rw [if_neg h]

/-- On a `lineOk` line the swap preserves the line-scan marker match,
letter and content alike. -/
theorem markerMatch_swap_of_lineOk {l : List Char} (hok : lineOk l = true) :
    markerMatch (pyStrip (swapAux '\n' l)) = markerMatch (pyStrip l) := by
  rw [pyStrip_swap (by decide) l]
  unfold lineOk at hok
  rcases hst : pyStrip l with _ | ⟨c1, t⟩
  · rfl
  · rcases t with _ | ⟨c2, r⟩
    · rfl
    · rw [hst] at hok
      have hok' : (if (isOptLetter c1 && isSepChar c2) = true then pairFree c2 r
          else pairFree '\n' (c1 :: c2 :: r)) = true := hok
      have hswap : swapAux '\n' (c1 :: c2 :: r)
          = c1 :: (if c2 = ')' && isOptLetter c1 then '/' else c2)
            :: swapAux c2 r := by
        rw [swapAux, swapAux]
        rw [if_neg (by simp [isOptLetter])]
      rw [hswap]
      show (if isOptLetter c1
            && isSepChar (if c2 = ')' && isOptLetter c1 then '/' else c2)
          then some (c1, pyStrip (swapAux c2 r)) else none)
        = (if isOptLetter c1 && isSepChar c2
          then some (c1, pyStrip r) else none)
      rw [isSepChar_swap_pair c1 c2]
      by_cases hpair : (isOptLetter c1 && isSepChar c2) = true
      · rw [if_pos hpair, if_pos hpair]
        rw [if_pos hpair] at hok'
        rw [swapAux_pairFree hok']
      · rw [if_neg hpair, if_neg hpair]

theorem lineScanAux_cons_none (l0 : List Char) (rest : List (List Char))
    (m : OptMap) (h : markerMatch (pyStrip l0) = none) :
    lineScanAux (l0 :: rest) m = lineScanAux rest m := by
  rw [lineScanAux, h]

theorem lineScanAux_cons_some (l0 : List Char) {letter : Char}
    {content : List Char} (rest : List (List Char)) (m : OptMap)
    (h : markerMatch (pyStrip l0) = some (letter, content)) :
    lineScanAux (l0 :: rest) m
    = lineScanAux rest (m.insert letter (pyStrip (joinSp
        ((if content.isEmpty then [] else [content])
          ++ takeContinuation rest)))) := by
  rw [lineScanAux, h]

/-- The line scan is swap-invariant when every line keeps its markers at
the leading position only. -/
theorem lineScanAux_swap (lines : List (List Char)) :
    (∀ l ∈ lines, lineOk l = true) → ∀ m : OptMap,
    lineScanAux (lines.map (swapAux '\n')) m = lineScanAux lines m := by
  induction lines with
  | nil =>
    intro h m
    rfl
  | cons l0 rest ih =>
    intro h m
    have hok := h l0 (List.mem_cons_self _ _)
    have htail : ∀ l ∈ rest, lineOk l = true :=
      fun l hl => h l (List.mem_cons_of_mem _ hl)
    rw [List.map_cons]
    rcases hmm : markerMatch (pyStrip l0) with _ | ⟨letter, content⟩
    · rw [lineScanAux_cons_none _ _ m
        (by rw [markerMatch_swap_of_lineOk hok]; exact hmm)]
      rw [lineScanAux_cons_none _ _ m hmm]
      exact ih htail m
    · rw [lineScanAux_cons_some _ _ m
        (by rw [markerMatch_swap_of_lineOk hok]; exact hmm)]
      rw [lineScanAux_cons_some _ _ m hmm]
      rw [takeContinuation_swap rest htail]
      exact ih htail _

theorem lineScanOptions_swap (s : List Char)
    (h : markersLineLeading s = true) :
    lineScanOptions (swapMarkers s) = lineScanOptions s := by
  unfold lineScanOptions
  rw [splitLines_swapMarkers]
  apply lineScanAux_swap
  intro l hl
  unfold markersLineLeading at h
  rw [List.all_eq_true] at h
  exact h l hl

/-- C7 (amended): option extraction is marker-style invariant in the
following sense.  The regex fallback sweep (method 2 of
`parse_question_details`, main.py 1529-1533) extracts identical option
texts from a block and from the block with every contextual `X)` marker
respelled `X/`, for every block.  The line scan (method 1, main.py
1489-1526) does so whenever every `X)` marker occurrence of the block is
line-leading, i.e. sits at the start of its stripped line; without that
proviso the scan differs, because captured option content retains
marker-shaped substrings verbatim. -/
theorem c7_marker_style_invariance :
    (∀ s : List Char, regexSweepOptions (swapMarkers s) = regexSweepOptions s)
    ∧ ∀ s : List Char, markersLineLeading s = true →
        lineScanOptions (swapMarkers s) = lineScanOptions s :=
  ⟨regexSweepOptions_swap, lineScanOptions_swap⟩

theorem c7_marker_style_invariance_witness :
    markersLineLeading "A) eins\nzwei\nB/ drei".data = true
    ∧ lineScanOptions (swapMarkers "A) eins\nzwei\nB/ drei".data)
        = lineScanOptions "A) eins\nzwei\nB/ drei".data :=
  ⟨by decide,
    c7_marker_style_invariance.2 "A) eins\nzwei\nB/ drei".data (by decide)⟩

end Altfragen
